import Mathlib

/-!
Verification of the natural-language specification of the Clay v1 masked
autoencoder (`src/src/model_clay_v1.py`) against its source.

The development shallowly embeds the parts of the program the claims are
about.  Batched tensors are nested lists (`T2`, `T3`, `T4` below), pixel and
embedding values are real numbers, the mask ratio is a rational, and the
random per-patch scores drawn by `torch.randn` in training mode are an
explicit `noise` argument (the spec, section 9, itself prescribes passing the
randomness source explicitly).  The external collaborators that are part of
the repository but not under `src/` (`DynamicEmbedding` from `src.factory`,
`posemb_sincos_2d_with_gsd` from `src.utils`, and the `Transformer` stack
from `vit_pytorch`) are modelled from the spec as opaque function parameters
carried by the `EncoderM` / `DecoderM` structures; the spec gives only their
input/output shape contracts, which appear as hypotheses of the shape
theorems.
-/

namespace ClayV1

/-- Vector of floating-point values (one tensor axis). -/
abbrev T1 : Type := List ℝ

/-- Rank-2 tensor of floats. -/
abbrev T2 : Type := List T1

/-- Rank-3 tensor of floats. -/
abbrev T3 : Type := List T2

/-- Rank-4 tensor of floats. -/
abbrev T4 : Type := List T3

/-- Elementwise addition of two vectors, the semantics of `+` on equally
shaped tensors along the last axis. -/
def addVec (u v : T1) : T1 := List.zipWith (· + ·) u v

/-- Shape predicate for a rank-2 tensor: `a` rows, each of length `b`. -/
def shape2 {α : Type} (t : List (List α)) (a b : ℕ) : Prop :=
  t.length = a ∧ ∀ r ∈ t, r.length = b

/-- Shape predicate for a rank-3 tensor. -/
def shape3 {α : Type} (t : List (List (List α))) (a b c : ℕ) : Prop :=
  t.length = a ∧ ∀ r ∈ t, shape2 r b c

/-- Shape predicate for a rank-4 tensor. -/
def shape4 {α : Type} (t : List (List (List (List α)))) (a b c d : ℕ) : Prop :=
  t.length = a ∧ ∀ r ∈ t, shape3 r b c d

/-! ### argsort

`torch.argsort(x, dim=-1)` returns, per row, the permutation of positions
that lists the entries in ascending order.  We model it by sorting the
position list `[0, …, n-1]` under the order "smaller value first, position
as tie-break", which is a linear order on positions; on rows with distinct
entries (the only rows the program ever sorts: Gaussian noise, the identity
row in evaluation mode, and integer permutations) every correct argsort
returns exactly this permutation. -/

/-- Comparison of positions `i`, `j` of `xs`: strictly smaller value, or
equal value with `i` to the left of `j` (tie-break). -/
def argRel {α : Type} [LinearOrder α] [Inhabited α] (xs : List α) (i j : ℕ) : Prop :=
  xs.getD i default < xs.getD j default ∨
    (xs.getD i default = xs.getD j default ∧ i ≤ j)

instance {α : Type} [LinearOrder α] [Inhabited α] (xs : List α) :
    DecidableRel (argRel xs) := fun _ _ => inferInstanceAs (Decidable (_ ∨ _))

instance {α : Type} [LinearOrder α] [Inhabited α] (xs : List α) :
    IsTotal ℕ (argRel xs) where
  total i j := by
    rcases lt_trichotomy (xs.getD i default) (xs.getD j default) with h | h | h
    · exact Or.inl (Or.inl h)
    · rcases le_total i j with hij | hij
      · exact Or.inl (Or.inr ⟨h, hij⟩)
      · exact Or.inr (Or.inr ⟨h.symm, hij⟩)
    · exact Or.inr (Or.inl h)

instance {α : Type} [LinearOrder α] [Inhabited α] (xs : List α) :
    IsTrans ℕ (argRel xs) where
  trans i j k := by
    rintro (h1 | ⟨h1, h1'⟩) (h2 | ⟨h2, h2'⟩)
    · exact Or.inl (h1.trans h2)
    · exact Or.inl (h2 ▸ h1)
    · exact Or.inl (h1 ▸ h2)
    · exact Or.inr ⟨h1.trans h2, h1'.trans h2'⟩

instance {α : Type} [LinearOrder α] [Inhabited α] (xs : List α) :
    IsAntisymm ℕ (argRel xs) where
  antisymm i j := by
    rintro (h1 | ⟨h1, h1'⟩) (h2 | ⟨h2, h2'⟩)
    · exact absurd (h1.trans h2) (lt_irrefl _)
    · exact absurd h1 (h2 ▸ lt_irrefl _)
    · exact absurd h2 (h1 ▸ lt_irrefl _)
    · exact le_antisymm h1' h2'

/-- Model of `torch.argsort` on one row (ascending, stable). -/
def argsort {α : Type} [LinearOrder α] [Inhabited α] (xs : List α) : List ℕ :=
  List.insertionSort (argRel xs) (List.range xs.length)

/-! ### Masking engine (`Encoder.mask_out`, lines 125-193) -/

/-- Model of Python `int(math.sqrt(L))` (line 98 / line 294): the greatest
natural number whose square does not exceed `L`. -/
def grid_size (L : ℕ) : ℕ := Nat.findGreatest (fun g => g * g ≤ L) L

/-- Model of `int(self.mask_ratio * self.num_patches)` (lines 163-165 and
line 322).  For the nonnegative ratios of the claimed domain `[0,1)`,
Python `int()` truncation is the floor. -/
def num_masked_patches (mask_ratio : ℚ) (num_patches : ℕ) : ℕ :=
  (⌊mask_ratio * (num_patches : ℚ)⌋).toNat

/-- Evaluation-mode noise row `b` of `torch.arange(B*L).reshape(B, L)`
(lines 155-158): the strictly increasing row `[b*L, …, b*L+L-1]`. -/
def eval_noise_row (b L : ℕ) : List ℚ :=
  (List.range L).map (fun i => ((b * L + i : ℕ) : ℚ))

/-- Noise row consulted for sample `b`: the externally drawn Gaussian scores
in training mode, the identity ordering otherwise (lines 153-158). -/
def noise_row (training : Bool) (noise : List (List ℚ)) (L b : ℕ) : List ℚ :=
  if training then noise.getD b [] else eval_noise_row b L

/-- Row of the structured mask before unshuffling (lines 173-174): ones at
the first `num` positions of the sorted order, zeros elsewhere. -/
def structured_row (num L : ℕ) : List ℚ :=
  (List.range L).map (fun k => if k < num then (1 : ℚ) else 0)

/-- Result of `Encoder.mask_out`: unmasked patch embeddings, unmasked and
masked index lists, and the dense 0/1 mask in original patch order. -/
structure MaskOutResult (α : Type) where
  unmasked_patches : List (List α)
  unmasked_indices : List (List ℕ)
  masked_indices : List (List ℕ)
  masked_matrix : List (List ℚ)

/-- Model of `Encoder.mask_out` (lines 148-193).  `B`, `L` are read off the
patch tensor; `self.num_patches` was set by `add_encodings` from the same
patch count `L` of the same forward pass (line 99), so it is
`grid_size L ^ 2` here.  Per sample: `random_indices = argsort(noise)`,
`reverse_indices = argsort(random_indices)`, the masked indices are the
first `num` sorted positions, the unmasked indices the rest, and the dense
mask is the structured mask gathered through the inverse permutation. -/
def mask_out {α : Type} [Inhabited α] (training : Bool) (noise : List (List ℚ))
    (mask_ratio : ℚ) (patches : List (List α)) : MaskOutResult α :=
  let B := patches.length
  let L := (patches.headD []).length
  let nP := grid_size L * grid_size L
  let num := num_masked_patches mask_ratio nP
  let rand := (List.range B).map (fun b => argsort (noise_row training noise L b))
  { unmasked_patches :=
      (List.range B).map (fun b =>
        ((rand.getD b []).drop num).map (fun i => (patches.getD b []).getD i default)),
    unmasked_indices := rand.map (fun r => r.drop num),
    masked_indices := rand.map (fun r => r.take num),
    masked_matrix :=
      (List.range B).map (fun b =>
        (List.range L).map (fun j =>
          (structured_row num L).getD ((argsort (rand.getD b [])).getD j 0) 0)) }

/-! ### Metadata encoder (`encode_metadata`, lines 21-53) -/

/-- Model of `encode_metadata`.  The lat/lon block (entries 0-3) is
populated when `has_lat_lon` is true and zeroed otherwise (lines 29-39).
The time block (entries 4-7) is populated under `if not has_time` — i.e.
when `has_time` is FALSE — and zeroed when `has_time` is true
(lines 41-51); the source inverts this flag relative to its name. -/
noncomputable def encode_metadata (time latlon : T2) (has_time has_lat_lon : Bool) : T2 :=
  (List.range time.length).map (fun b =>
    let lat := (latlon.getD b []).getD 0 0 * Real.pi / 180
    let lon := (latlon.getD b []).getD 1 0 * Real.pi / 180
    let latlonPart : T1 :=
      if has_lat_lon then [Real.sin lat, Real.cos lat, Real.sin lon, Real.cos lon]
      else [0, 0, 0, 0]
    let hour := (time.getD b []).getD 0 0 * 2 * Real.pi / 24
    let week := (time.getD b []).getD 1 0 * 2 * Real.pi / 52
    let timePart : T1 :=
      if has_time then [0, 0, 0, 0]
      else [Real.sin hour, Real.cos hour, Real.sin week, Real.cos week]
    latlonPart ++ timePart)

/-! ### Datacube and the encoder / decoder forward passes -/

/-- Input datacube (spec section 6): per-batch pixel tensor, time pairs,
lat/lon pairs, ground-sample-distances and wavelength rows. -/
structure Datacube where
  pixels : T4
  time : T2
  latlon : T2
  gsd : T2
  waves : T2

/-- Encoder state (`Encoder.__init__`, lines 56-87).  `patch_embedding`
(the `DynamicEmbedding` patch projector), `transformer` (the `vit_pytorch`
stack) and `posemb` (`posemb_sincos_2d_with_gsd`) are repository code not
under `src/`; they are modelled from the spec as opaque functions whose
shape contracts (spec section 6) appear as hypotheses of the theorems. -/
structure EncoderM where
  mask_ratio : ℚ
  patch_size : ℕ
  dim : ℕ
  cls_token : T1
  patch_embedding : T4 → T1 → T3 × T2
  transformer : T3 → T3
  posemb : ℕ → ℕ → ℕ → ℝ → T2

/-- Model of `Encoder.add_encodings` (lines 94-123): the positional
encoding of width `dim - 8` for the square grid, computed from `gsd[0]`
(a one-element tensor whose use broadcasts its single entry), is
concatenated with the 8-wide metadata encoding broadcast across patches,
and the result is added to the patch embeddings. -/
noncomputable def EncoderM.add_encodings (e : EncoderM) (patches : T3)
    (time latlon gsd : T2) : T3 :=
  let L := (patches.headD []).length
  let g := grid_size L
  let pos := e.posemb g g (e.dim - 8) ((gsd.headD []).getD 0 0)
  let metadata := encode_metadata time latlon true true
  List.zipWith
    (fun pRow md => List.zipWith (fun pv posv => addVec pv (posv ++ md)) pRow pos)
    patches metadata

/-- Model of `Encoder.forward` (lines 195-243): embed patches with the
wavelength row of sample 0, add encodings, mask out, prepend the class
token to every sample, and run the transformer stack. -/
noncomputable def EncoderM.forward (e : EncoderM) (training : Bool)
    (noise : List (List ℚ)) (dc : Datacube) :
    T3 × List (List ℕ) × List (List ℕ) × List (List ℚ) :=
  let patches := (e.patch_embedding dc.pixels (dc.waves.headD [])).1
  let patches := e.add_encodings patches dc.time dc.latlon dc.gsd
  let m := mask_out training noise e.mask_ratio patches
  let withCls := m.unmasked_patches.map (fun row => e.cls_token :: row)
  (e.transformer withCls, m.unmasked_indices, m.masked_indices, m.masked_matrix)

/-- Decoder state (`Decoder.__init__`, lines 246-281); `enc_to_dec` is the
learned linear re-projection (identity when the widths agree),
`embed_to_pixels` the decoding-mode patch projector. -/
structure DecoderM where
  mask_ratio : ℚ
  patch_size : ℕ
  encoder_dim : ℕ
  dim : ℕ
  enc_to_dec : T1 → T1
  mask_patch : T1
  transformer : T3 → T3
  embed_to_pixels : T3 → T1 → T3 × T2
  posemb : ℕ → ℕ → ℕ → ℝ → T2

/-- Model of `Decoder.reconstruct_and_add_encoding` (lines 283-350):
split off the class token, recompute the positional+metadata encoding at
decoder width, and scatter the re-projected unmasked embeddings and the
learned mask placeholder (each with its positional encoding added) into a
fresh full-length buffer in original patch order; positions in neither
index list keep the zeros of the fresh buffer.  `gsd_row` is the
one-element tensor `gsd[0]` passed in by `Decoder.forward` (line 376); its
further `gsd[0]` at line 303 is the scalar entry. -/
noncomputable def DecoderM.reconstruct_and_add_encoding (d : DecoderM)
    (unmasked_patches : T3) (unmasked_indices masked_indices : List (List ℕ))
    (masked_matrix : List (List ℚ)) (time latlon : T2) (gsd_row : T1) : T3 :=
  let B := masked_matrix.length
  let L := (masked_matrix.headD []).length
  let g := grid_size L
  let nP := g * g
  let cls := unmasked_patches.map (fun row => row.take 1)
  let rest := unmasked_patches.map (fun row => row.drop 1)
  let pos := d.posemb g g (d.dim - 8) (gsd_row.getD 0 0)
  let metadata := encode_metadata time latlon true true
  let dp := (List.range B).map (fun b =>
    (List.range nP).map (fun j =>
      if j ∈ masked_indices.getD b [] then
        addVec d.mask_patch (pos.getD j [] ++ metadata.getD b [])
      else if j ∈ unmasked_indices.getD b [] then
        addVec ((rest.getD b []).getD ((unmasked_indices.getD b []).indexOf j) [])
          (pos.getD j [] ++ metadata.getD b [])
      else List.replicate d.dim 0))
  List.zipWith (fun c r => c ++ r) cls dp

/-- Model of `Decoder.forward` (lines 352-387): re-project to decoder
width, rebuild the full-length sequence, run the decoder transformer,
project back to pixel space with the wavelength row of sample 0, and drop
the class-token output. -/
noncomputable def DecoderM.forward (d : DecoderM) (encoded : T3)
    (unmasked_indices masked_indices : List (List ℕ)) (masked_matrix : List (List ℚ))
    (time latlon gsd waves : T2) : T3 × T2 :=
  let x := encoded.map (fun row => row.map d.enc_to_dec)
  let dp := d.reconstruct_and_add_encoding x unmasked_indices masked_indices
    masked_matrix time latlon (gsd.headD [])
  let dec := d.transformer dp
  let pw := d.embed_to_pixels dec (waves.headD [])
  (pw.1.map (fun row => row.drop 1), pw.2)

/-! ### Reconstruction loss (`ClayMAE.per_pixel_loss`, lines 436-461) -/

/-- Mean of a list of reals (`reduce(..., "mean")` over the last axis). -/
noncomputable def meanList (l : T1) : ℝ := l.sum / l.length

/-- Unbiased variance, the default of `torch.Tensor.var` (correction 1). -/
noncomputable def varList (l : T1) : ℝ :=
  (l.map (fun x => (x - meanList l) ^ 2)).sum / ((l.length : ℝ) - 1)

/-- Per-patch pixel normalization (lines 449-452):
`(patches - mean) / (var + 1e-6) ** 0.5`. -/
noncomputable def norm_patch (l : T1) : List ℝ :=
  l.map (fun x => (x - meanList l) / Real.sqrt (varList l + 1 / 1000000))

/-- Model of the `rearrange` at lines 442-447 for one sample:
`C (h p1) (w p2) -> (h w) (C p1 p2)`, row-major over the patch grid, with
each patch flattened channel-major. -/
noncomputable def patchify_sample (p : ℕ) (s : T3) : T2 :=
  let C := s.length
  let H := (s.headD []).length
  let W := ((s.headD []).headD []).length
  (List.range (H / p)).flatMap (fun h =>
    (List.range (W / p)).map (fun w =>
      (List.range C).flatMap (fun c =>
        (List.range p).flatMap (fun i =>
          (List.range p).map (fun j =>
            ((s.getD c []).getD (h * p + i) []).getD (w * p + j) 0)))))

/-- Per-patch squared error (lines 454-455): elementwise squared
difference of target patches and reconstructions, then the mean over the
flattened patch axis, after optional per-patch normalization of the
targets. -/
noncomputable def patch_errors (norm_pix_loss : Bool) (patch_size : ℕ)
    (cube : T4) (pixels : T3) : T2 :=
  let patches := cube.map (patchify_sample patch_size)
  let patches := if norm_pix_loss then patches.map (fun ps => ps.map norm_patch) else patches
  List.zipWith
    (fun ps qs => List.zipWith
      (fun u v => meanList (List.zipWith (fun a b => (a - b) ^ 2) u v)) ps qs)
    patches pixels

/-- Model of `ClayMAE.per_pixel_loss` (lines 436-461): the per-patch
errors are multiplied by the dense mask, summed over all samples and
patches, and divided by the total mask sum. -/
noncomputable def per_pixel_loss (norm_pix_loss : Bool) (patch_size : ℕ)
    (cube : T4) (pixels : T3) (masked_matrix : T2) : ℝ :=
  let errs := patch_errors norm_pix_loss patch_size cube pixels
  (List.zipWith (fun ls ms => (List.zipWith (fun a b => a * b) ls ms).sum)
      errs masked_matrix).sum /
    (masked_matrix.map List.sum).sum

/-! ### Top-level model -/

/-- Top-level model state (`ClayMAE.__init__`, lines 390-434). -/
structure ClayMAEM where
  mask_ratio : ℚ
  patch_size : ℕ
  norm_pix_loss : Bool
  encoder : EncoderM
  decoder : DecoderM

/-- Model of `ClayMAE.forward` (lines 463-495): encoder, decoder, then the
masked reconstruction loss; the dense mask (a float tensor in the source)
is cast to reals for the loss. -/
noncomputable def ClayMAEM.forward (m : ClayMAEM) (training : Bool)
    (noise : List (List ℚ)) (dc : Datacube) : ℝ :=
  let enc := m.encoder.forward training noise dc
  let pixels := (m.decoder.forward enc.1 enc.2.1 enc.2.2.1 enc.2.2.2
    dc.time dc.latlon dc.gsd dc.waves).1
  per_pixel_loss m.norm_pix_loss m.patch_size dc.pixels pixels
    (enc.2.2.2.map (fun row => row.map (fun q => (q : ℝ))))

/-! ### Model-size registry (`ClayMAEModule.__init__`, lines 517-545) -/

/-- Hyperparameter record produced by a model-size registry entry
(`clay_mae_tiny`, lines 498-514). -/
structure ClayMAEArgs where
  mask_ratio : ℚ
  patch_size : ℕ
  norm_pix_loss : Bool
  dim : ℕ
  depth : ℕ
  heads : ℕ
  dim_head : ℕ
  mlp_ratio : ℕ
  decoder_dim : ℕ
  decoder_depth : ℕ
  decoder_heads : ℕ
  decoder_dim_head : ℕ
  decoder_mlp_ratio : ℕ

/-- The argument set of `clay_mae_tiny` (lines 498-514). -/
def clay_mae_tiny_args (mask_ratio : ℚ) (patch_size : ℕ) (norm_pix_loss : Bool) :
    ClayMAEArgs :=
  { mask_ratio := mask_ratio, patch_size := patch_size, norm_pix_loss := norm_pix_loss,
    dim := 192, depth := 4, heads := 4, dim_head := 48, mlp_ratio := 2,
    decoder_dim := 96, decoder_depth := 2, decoder_heads := 2,
    decoder_dim_head := 48, decoder_mlp_ratio := 2 }

/-- The model-size registry `model_map` (lines 532-534): symbolic name to
configuration builder. -/
def model_map : List (String × (ℚ → ℕ → Bool → ClayMAEArgs)) :=
  [("tiny", fun mr ps npl => clay_mae_tiny_args mr ps npl)]

/-- The message of the `ValueError` raised for an unregistered model size
(lines 543-545); Python renders `model_map.keys()` as
`dict_keys(['tiny'])` (the keys of the registry). -/
def invalid_model_size_message (model_size : String) : String :=
  "Invalid model size " ++ model_size ++ ". Expected one of dict_keys([tiny])"

/-- Model of `ClayMAEModule.__init__` (lines 517-545): look the requested
size up in the registry; build the configuration on a hit, raise a
`ValueError` naming the invalid key and the valid set otherwise.  No
check of any kind is made on `mask_ratio`. -/
def ClayMAEModule_init (model_size : String) (mask_ratio : ℚ)
    (norm_pix_loss : Bool) (patch_size : ℕ) : Except String ClayMAEArgs :=
  match model_map.find? (fun kv => kv.1 = model_size) with
  | some kv => Except.ok (kv.2 mask_ratio patch_size norm_pix_loss)
  | none => Except.error (invalid_model_size_message model_size)

/-! ### predict_step (`ClayMAEModule.predict_step`, lines 589-675) -/

/-- The attribute names the `Encoder` class ever assigns on itself:
`__init__` assigns the first seven (lines 67-87, including the registered
parameter `cls_token` and the submodules `patch_embedding` and
`transformer`), and `add_encodings` assigns `num_patches` (line 99).  No
method assigns an attribute named `B`. -/
def encoder_assigned_attributes : List String :=
  ["mask_ratio", "patch_size", "dim", "cls_token", "patch_embedding",
   "transformer", "num_patches"]

/-- Python attribute access on the encoder object: defined for assigned
attributes, an `AttributeError` otherwise. -/
def encoder_getattr (name : String) : Except String String :=
  if name ∈ encoder_assigned_attributes then Except.ok name
  else Except.error ("AttributeError: Encoder object has no attribute " ++ name)

/-- Model of `ClayMAEModule.predict_step` (lines 589-675) on a well-formed
prediction batch: masking is disabled, the encoder forward pass runs, and
the first shape assertion (lines 613-619) evaluates
`self.model.encoder.B` — an attribute lookup — before anything is
compared or returned.  The embeddings are returned only if every step
succeeds. -/
noncomputable def predict_step (e : EncoderM) (training : Bool)
    (noise : List (List ℚ)) (batch : Datacube) : Except String T3 :=
  let enc := EncoderM.forward { e with mask_ratio := 0 } training noise batch
  match encoder_getattr "B" with
  | Except.ok _ => Except.ok enc.1
  | Except.error msg => Except.error msg

/-! ### Concrete instantiations used by witnesses

The spec treats the patch projector, the positional encoder and the
transformer stacks as opaque collaborators with shape contracts; these
trivial instantiations (constant patch embeddings of the contractual
shape, identity transformer, zero positional encodings) satisfy the
contracts and serve as concrete inputs for the shape and noninterference
theorems. -/

/-- Concrete encoder state with `tiny` dimensions and trivial
collaborators. -/
noncomputable def encoderWitness : EncoderM :=
  ⟨3 / 4, 16, 192, List.replicate 192 0,
    fun _ _ => (List.replicate 2 (List.replicate 4 (List.replicate 192 0)), []),
    fun x => x,
    fun h w dd _ => List.replicate (h * w) (List.replicate dd 0)⟩

/-- Concrete decoder state with `tiny` dimensions and trivial
collaborators (for `C = 4`, patch 16: pixel width `4 * 16 * 16 = 1024`). -/
noncomputable def decoderWitness : DecoderM :=
  ⟨3 / 4, 16, 192, 96,
    fun _ => List.replicate 96 0, List.replicate 96 0, fun x => x,
    fun x _ => (x.map (fun row => row.map (fun _ => List.replicate 1024 0)), []),
    fun h w dd _ => List.replicate (h * w) (List.replicate dd 0)⟩

/-- Concrete top-level model built from the witness encoder and decoder. -/
noncomputable def clayWitness : ClayMAEM := ⟨3 / 4, 16, false, encoderWitness, decoderWitness⟩

/-- Concrete datacube with `B = 2`, `C = 4`, `H = W = 32`. -/
noncomputable def datacubeWitness : Datacube :=
  ⟨List.replicate 2 (List.replicate 4 (List.replicate 32 (List.replicate 32 0))),
    [[0, 0], [0, 0]], [[0, 0], [0, 0]], [[1], [1]], [[5], [5]]⟩

/-- A second datacube identical to `datacubeWitness` except in the `gsd`
entry and `waves` row at batch position 1. -/
noncomputable def datacubeWitness2 : Datacube :=
  ⟨List.replicate 2 (List.replicate 4 (List.replicate 32 (List.replicate 32 0))),
    [[0, 0], [0, 0]], [[0, 0], [0, 0]], [[1], [7]], [[5], [9]]⟩

end ClayV1

namespace ClayV1

/-! ## Theorems

General facts about the embedded definitions, followed by one theorem per
claim (with witnesses and counterexamples where required). -/

theorem getD_map_range {α : Type} (f : ℕ → α) {n i : ℕ} (d : α) (h : i < n) :
    ((List.range n).map f).getD i d = f i := by
  have hl : i < ((List.range n).map f).length := by simpa using h
  rw [List.getD_eq_getElem _ _ hl]
  simp

theorem argsort_perm {α : Type} [LinearOrder α] [Inhabited α] (xs : List α) :
    List.Perm (argsort xs) (List.range xs.length) :=
  List.perm_insertionSort _ _

theorem argsort_length {α : Type} [LinearOrder α] [Inhabited α] (xs : List α) :
    (argsort xs).length = xs.length := by
  simpa using (argsort_perm xs).length_eq

theorem argsort_nodup {α : Type} [LinearOrder α] [Inhabited α] (xs : List α) :
    (argsort xs).Nodup :=
  (argsort_perm xs).nodup_iff.mpr (List.nodup_range _)

theorem argsort_mem {α : Type} [LinearOrder α] [Inhabited α] {xs : List α} {i : ℕ} :
    i ∈ argsort xs ↔ i < xs.length := by
  rw [(argsort_perm xs).mem_iff, List.mem_range]

theorem argsort_sorted {α : Type} [LinearOrder α] [Inhabited α] (xs : List α) :
    (argsort xs).Sorted (argRel xs) :=
  List.sorted_insertionSort _ _

theorem argsort_of_sorted_range {α : Type} [LinearOrder α] [Inhabited α]
    {xs : List α} {L : ℕ} (hlen : xs.length = L)
    (hmono : ∀ i j, i < j → j < L → xs.getD i default < xs.getD j default) :
    argsort xs = List.range L := by
  have hs : (List.range xs.length).Sorted (argRel xs) := by
    refine ((List.pairwise_lt_range xs.length).imp_of_mem ?_)
    intro i j hi hj hij
    rw [List.mem_range] at hi hj
    exact Or.inl (hmono i j hij (hlen ▸ hj))
  rw [argsort, hs.insertionSort_eq, hlen]

theorem argsort_eval_noise_row (b L : ℕ) :
    argsort (eval_noise_row b L) = List.range L := by
  refine argsort_of_sorted_range (by simp [eval_noise_row]) ?_
  intro i j hij hj
  rw [eval_noise_row, getD_map_range _ _ (show i < L by omega), getD_map_range _ _ hj]
  exact_mod_cast by omega

theorem indexOf_mem_range_perm {p : List ℕ} {L : ℕ}
    (hp : List.Perm p (List.range L)) {j : ℕ} (hj : j < L) :
    p.indexOf j < p.length :=
  List.indexOf_lt_length.mpr (hp.mem_iff.mpr (List.mem_range.mpr hj))

theorem argsort_inverse {p : List ℕ} {L : ℕ} (hp : List.Perm p (List.range L))
    {j : ℕ} (hj : j < L) : (argsort p).getD j 0 = p.indexOf j := by
  have hnd : p.Nodup := hp.nodup_iff.mpr (List.nodup_range _)
  have hlen : p.length = L := by simpa using hp.length_eq
  have hmem : ∀ x, x ∈ p ↔ x < L := fun x => by rw [hp.mem_iff, List.mem_range]
  -- the candidate inverse permutation
  have hqnd : ((List.range L).map (fun j => p.indexOf j)).Nodup := by
    refine List.Nodup.map_on ?_ (List.nodup_range _)
    intro x hx y hy hxy
    rw [List.mem_range] at hx hy
    have h1 : p.getD (p.indexOf x) 0 = x := by
      rw [List.getD_eq_getElem _ _ (indexOf_mem_range_perm hp hx)]
      exact List.getElem_indexOf _
    have h2 : p.getD (p.indexOf y) 0 = y := by
      rw [List.getD_eq_getElem _ _ (indexOf_mem_range_perm hp hy)]
      exact List.getElem_indexOf _
    rw [← h1, ← h2, hxy]
  have hqmem : ∀ x, x ∈ (List.range L).map (fun j => p.indexOf j) ↔ x ∈ List.range L := by
    intro x
    simp only [List.mem_map, List.mem_range]
    constructor
    · rintro ⟨j, hjL, rfl⟩
      exact hlen ▸ indexOf_mem_range_perm hp hjL
    · intro hx
      have hx' : x < p.length := hlen ▸ hx
      refine ⟨p[x], (hmem _).mp (List.getElem_mem hx'), ?_⟩
      exact List.indexOf_getElem hnd x hx'
  have hqperm : List.Perm ((List.range L).map (fun j => p.indexOf j)) (List.range L) :=
    (List.perm_ext_iff_of_nodup hqnd (List.nodup_range _)).mpr hqmem
  have hqsorted : ((List.range L).map (fun j => p.indexOf j)).Sorted (argRel p) := by
    rw [List.Sorted, List.pairwise_map]
    refine ((List.pairwise_lt_range L).imp_of_mem ?_)
    intro i j hi hj' hij
    rw [List.mem_range] at hi hj'
    left
    have h1 : p.getD (p.indexOf i) default = i := by
      rw [List.getD_eq_getElem _ _ (indexOf_mem_range_perm hp hi)]
      exact List.getElem_indexOf _
    have h2 : p.getD (p.indexOf j) default = j := by
      rw [List.getD_eq_getElem _ _ (indexOf_mem_range_perm hp hj')]
      exact List.getElem_indexOf _
    rw [h1, h2]
    exact hij
  have heq : argsort p = (List.range L).map (fun j => p.indexOf j) := by
    refine List.eq_of_perm_of_sorted ?_ (argsort_sorted p) hqsorted
    exact ((argsort_perm p).trans (by rw [hlen])).trans hqperm.symm
  rw [heq, getD_map_range _ _ hj]

theorem mem_take_iff_indexOf_lt {p : List ℕ} (hnd : p.Nodup) {j num : ℕ}
    (hj : j ∈ p) : j ∈ p.take num ↔ p.indexOf j < num := by
  constructor
  · intro h
    obtain ⟨i, hi, he⟩ := List.getElem_of_mem h
    have hi2 : i < num ∧ i < p.length := by
      simpa only [List.length_take, lt_min_iff] using hi
    have hpi : p.getD i 0 = j := by
      rw [List.getD_eq_getElem _ _ hi2.2, ← List.getElem_take]
      exact he
    have hidx : p.indexOf j = i := by
      rw [← hpi, List.getD_eq_getElem _ _ hi2.2]
      exact List.indexOf_getElem hnd i hi2.2
    omega
  · intro h
    have hlt : p.indexOf j < p.length := List.indexOf_lt_length.mpr hj
    have hmin : p.indexOf j < (p.take num).length := by
      simp only [List.length_take, lt_min_iff]
      exact ⟨h, hlt⟩
    have hval : (p.take num)[p.indexOf j] = j := by
      rw [List.getElem_take]
      exact List.getElem_indexOf hlt
    exact hval ▸ List.getElem_mem hmin

theorem mem_drop_iff_le_indexOf {p : List ℕ} (hnd : p.Nodup) {j num : ℕ}
    (hj : j ∈ p) : j ∈ p.drop num ↔ num ≤ p.indexOf j := by
  have hsplit : p.take num ++ p.drop num = p := List.take_append_drop num p
  have hdisj : List.Disjoint (p.take num) (p.drop num) :=
    List.disjoint_of_nodup_append (by rw [hsplit]; exact hnd)
  have hmem : j ∈ p.take num ∨ j ∈ p.drop num := by
    rw [← List.mem_append, hsplit]
    exact hj
  constructor
  · intro h
    rcases Nat.lt_or_ge (p.indexOf j) num with hlt | hge
    · exact absurd h (hdisj ((mem_take_iff_indexOf_lt hnd hj).mpr hlt))
    · exact hge
  · intro h
    rcases hmem with hm | hm
    · have := (mem_take_iff_indexOf_lt hnd hj).mp hm
      omega
    · exact hm

theorem mask_out_masked_getD {α : Type} [Inhabited α] (training : Bool)
    (noise : List (List ℚ)) (r : ℚ) (patches : List (List α)) (b : ℕ)
    (hb : b < patches.length) :
    (mask_out training noise r patches).masked_indices.getD b [] =
      (argsort (noise_row training noise (patches.headD []).length b)).take
        (num_masked_patches r
          (grid_size (patches.headD []).length * grid_size (patches.headD []).length)) := by
  simp only [mask_out, List.map_map]
  rw [getD_map_range _ _ hb]
  rfl

theorem mask_out_unmasked_getD {α : Type} [Inhabited α] (training : Bool)
    (noise : List (List ℚ)) (r : ℚ) (patches : List (List α)) (b : ℕ)
    (hb : b < patches.length) :
    (mask_out training noise r patches).unmasked_indices.getD b [] =
      (argsort (noise_row training noise (patches.headD []).length b)).drop
        (num_masked_patches r
          (grid_size (patches.headD []).length * grid_size (patches.headD []).length)) := by
  simp only [mask_out, List.map_map]
  rw [getD_map_range _ _ hb]
  rfl

theorem mask_out_matrix_getD {α : Type} [Inhabited α] (training : Bool)
    (noise : List (List ℚ)) (r : ℚ) (patches : List (List α)) (b : ℕ)
    (hb : b < patches.length) :
    (mask_out training noise r patches).masked_matrix.getD b [] =
      (List.range (patches.headD []).length).map (fun j =>
        (structured_row
            (num_masked_patches r
              (grid_size (patches.headD []).length * grid_size (patches.headD []).length))
            (patches.headD []).length).getD
          ((argsort (argsort (noise_row training noise (patches.headD []).length b))).getD j 0)
          0) := by
  simp only [mask_out, List.map_map]
  rw [getD_map_range _ _ hb]
  rw [getD_map_range (fun b => argsort (noise_row training noise (patches.headD []).length b))
    ([] : List ℕ) hb]

theorem mask_out_unmasked_patches_getD {α : Type} [Inhabited α] (training : Bool)
    (noise : List (List ℚ)) (r : ℚ) (patches : List (List α)) (b : ℕ)
    (hb : b < patches.length) :
    (mask_out training noise r patches).unmasked_patches.getD b [] =
      ((argsort (noise_row training noise (patches.headD []).length b)).drop
          (num_masked_patches r
            (grid_size (patches.headD []).length * grid_size (patches.headD []).length))).map
        (fun i => (patches.getD b []).getD i default) := by
  simp only [mask_out, List.map_map]
  rw [getD_map_range _ _ hb]
  rw [getD_map_range (fun b => argsort (noise_row training noise (patches.headD []).length b))
    ([] : List ℕ) hb]

theorem findGreatest_sq_le (L n : ℕ) :
    Nat.findGreatest (fun g => g * g ≤ L) n *
      Nat.findGreatest (fun g => g * g ≤ L) n ≤ L := by
  induction n with
  | zero => simp [Nat.findGreatest]
  | succ k ih =>
      by_cases h : (k + 1) * (k + 1) ≤ L
      · simp [Nat.findGreatest, h]
      · simpa [Nat.findGreatest, h] using ih

theorem grid_size_sq_le (L : ℕ) : grid_size L * grid_size L ≤ L :=
  findGreatest_sq_le L L

theorem num_masked_le {r : ℚ} (h1 : r ≤ 1) (n : ℕ) : num_masked_patches r n ≤ n := by
  unfold num_masked_patches
  rw [Int.toNat_le]
  calc ⌊r * (n : ℚ)⌋ ≤ ⌊(1 : ℚ) * (n : ℚ)⌋ :=
        Int.floor_le_floor (mul_le_mul_of_nonneg_right h1 (by positivity))
    _ = n := by rw [one_mul, Int.floor_natCast]

theorem noise_row_length (training : Bool) (noise : List (List ℚ)) (L b : ℕ)
    (hnoise : training = true → (noise.getD b []).length = L) :
    (noise_row training noise L b).length = L := by
  cases training
  · simp [noise_row, eval_noise_row]
  · simpa [noise_row] using hnoise rfl

theorem noise_row_argsort_perm (training : Bool) (noise : List (List ℚ)) (L b : ℕ)
    (hnoise : training = true → (noise.getD b []).length = L) :
    List.Perm (argsort (noise_row training noise L b)) (List.range L) := by
  have := argsort_perm (noise_row training noise L b)
  rwa [noise_row_length training noise L b hnoise] at this

/-- C1 (amended): for every batch, patch count `L` forming a square grid,
and `mask_ratio` in `[0,1)`, the masked and unmasked index lists of
`Encoder.mask_out` partition `{0..L-1}` per sample — every index appears
exactly once across the two lists — and the number of masked indices is
`int(mask_ratio * L)`, the FLOOR (truncation) of `mask_ratio * L`, not its
rounding. -/
theorem C1_mask_partition {α : Type} [Inhabited α] (training : Bool)
    (noise : List (List ℚ)) (mask_ratio : ℚ) (patches : List (List α)) (L b : ℕ)
    (hL : (patches.headD []).length = L)
    (hsq : grid_size L * grid_size L = L)
    (hr0 : 0 ≤ mask_ratio) (hr1 : mask_ratio < 1)
    (hb : b < patches.length)
    (hnoise : training = true → (noise.getD b []).length = L) :
    List.Perm
      ((mask_out training noise mask_ratio patches).masked_indices.getD b [] ++
        (mask_out training noise mask_ratio patches).unmasked_indices.getD b [])
      (List.range L) ∧
    ((mask_out training noise mask_ratio patches).masked_indices.getD b []).length =
      (⌊mask_ratio * (L : ℚ)⌋).toNat := by
  rw [mask_out_masked_getD training noise mask_ratio patches b hb,
    mask_out_unmasked_getD training noise mask_ratio patches b hb, hL, hsq]
  have hperm := noise_row_argsort_perm training noise L b hnoise
  have hrow := noise_row_length training noise L b hnoise
  constructor
  · rw [List.take_append_drop]
    exact hperm
  · rw [List.length_take, argsort_length, hrow]
    have hle := num_masked_le hr1.le L
    simpa [num_masked_patches] using Nat.min_eq_left hle

/-- Witness for C1 at `B = 1`, `L = 4`, `mask_ratio = 1/2` in evaluation
mode. -/
theorem C1_mask_partition_witness :
    (0 : ℚ) ≤ 1 / 2 ∧ (1 : ℚ) / 2 < 1 ∧
    (List.Perm
      ((mask_out false [] ((1 : ℚ) / 2) [List.replicate 4 (0 : ℚ)]).masked_indices.getD 0 [] ++
        (mask_out false [] ((1 : ℚ) / 2) [List.replicate 4 (0 : ℚ)]).unmasked_indices.getD 0 [])
      (List.range 4) ∧
    ((mask_out false [] ((1 : ℚ) / 2) [List.replicate 4 (0 : ℚ)]).masked_indices.getD 0 []).length =
      (⌊(1 : ℚ) / 2 * ((4 : ℕ) : ℚ)⌋).toNat) :=
  ⟨by norm_num, by norm_num,
    C1_mask_partition false [] ((1 : ℚ) / 2) [List.replicate 4 (0 : ℚ)] 4 0
      (by simp) (by decide) (by norm_num) (by norm_num) (by simp) (by simp)⟩

/-- Counterexample to C1 as stated: at `B = 1`, `L = 9`,
`mask_ratio = 3/4` in evaluation mode the code masks
`int(3/4 * 9) = int(6.75) = 6` patches, while the claimed
`round(mask_ratio * L) = round(6.75) = 7`. -/
theorem C1_counterexample :
    ((mask_out false [] ((3 : ℚ) / 4) [List.replicate 9 (0 : ℚ)]).masked_indices.getD 0 []).length ≠
      (round ((3 : ℚ) / 4 * 9)).toNat := by
  rw [mask_out_masked_getD false [] ((3 : ℚ) / 4) [List.replicate 9 (0 : ℚ)] 0 (by simp)]
  have hL : (([List.replicate 9 (0 : ℚ)] : List (List ℚ)).headD []).length = 9 := by simp
  rw [hL]
  have hg : grid_size 9 * grid_size 9 = 9 := by decide
  rw [hg]
  have hnum : num_masked_patches ((3 : ℚ) / 4) 9 = 6 := by
    unfold num_masked_patches
    have : ⌊(3 : ℚ) / 4 * ((9 : ℕ) : ℚ)⌋ = 6 := by
      rw [Int.floor_eq_iff] <;> norm_num
    rw [this]
    rfl
  rw [hnum]
  have hround : round ((3 : ℚ) / 4 * 9) = 7 := by
    rw [round_eq, Int.floor_eq_iff] <;> norm_num
  rw [hround]
  have : (argsort (noise_row false [] 9 0)) = List.range 9 := by
    have : noise_row false [] 9 0 = eval_noise_row 0 9 := by simp [noise_row]
    rw [this, argsort_eval_noise_row]
  rw [this]
  simp

/-- C5: in evaluation mode (`self.training` false) the Masking Engine uses
the identity ordering instead of random scores: for every sample the
masked indices are exactly the first `num_masked` positions `0..num-1` of
the original patch order, the unmasked indices are the remaining positions
in order, and the result is independent of the noise input — two calls
with identical `B` and `L` produce identical partitions. -/
theorem C5_eval_mask_deterministic {α : Type} [Inhabited α]
    (noise noise2 : List (List ℚ)) (mask_ratio : ℚ) (patches : List (List α)) (L b : ℕ)
    (hL : (patches.headD []).length = L)
    (hr0 : 0 ≤ mask_ratio) (hr1 : mask_ratio < 1)
    (hb : b < patches.length) :
    (mask_out false noise mask_ratio patches).masked_indices.getD b [] =
      List.range (num_masked_patches mask_ratio (grid_size L * grid_size L)) ∧
    (mask_out false noise mask_ratio patches).unmasked_indices.getD b [] =
      (List.range L).drop (num_masked_patches mask_ratio (grid_size L * grid_size L)) ∧
    mask_out false noise mask_ratio patches = mask_out false noise2 mask_ratio patches := by
  have hnum : num_masked_patches mask_ratio (grid_size L * grid_size L) ≤ L :=
    le_trans (num_masked_le hr1.le _) (grid_size_sq_le L)
  have hev : noise_row false noise L b = eval_noise_row b L := rfl
  refine ⟨?_, ?_, rfl⟩
  · rw [mask_out_masked_getD false noise mask_ratio patches b hb, hL, hev,
      argsort_eval_noise_row, List.take_range]
    rw [Nat.min_eq_left hnum]
  · rw [mask_out_unmasked_getD false noise mask_ratio patches b hb, hL, hev,
      argsort_eval_noise_row]

/-- Witness for C5 at `B = 1`, `L = 4`, `mask_ratio = 3/4` with two
different noise tensors. -/
theorem C5_eval_mask_deterministic_witness :
    (0 : ℚ) ≤ 3 / 4 ∧ (3 : ℚ) / 4 < 1 ∧
    ((mask_out false [[5]] ((3 : ℚ) / 4) [List.replicate 4 (0 : ℚ)]).masked_indices.getD 0 [] =
      List.range (num_masked_patches ((3 : ℚ) / 4) (grid_size 4 * grid_size 4)) ∧
    (mask_out false [[5]] ((3 : ℚ) / 4) [List.replicate 4 (0 : ℚ)]).unmasked_indices.getD 0 [] =
      (List.range 4).drop (num_masked_patches ((3 : ℚ) / 4) (grid_size 4 * grid_size 4)) ∧
    mask_out false [[5]] ((3 : ℚ) / 4) [List.replicate 4 (0 : ℚ)] =
      mask_out false [[7]] ((3 : ℚ) / 4) [List.replicate 4 (0 : ℚ)]) :=
  ⟨by norm_num, by norm_num,
    C5_eval_mask_deterministic [[5]] [[7]] ((3 : ℚ) / 4) [List.replicate 4 (0 : ℚ)] 4 0
      (by simp) (by norm_num) (by norm_num) (by simp)⟩

/-- C6: the dense mask returned by `Encoder.mask_out` is consistent with
the index lists: per sample the row has length `L`, every entry is 0 or 1,
an entry is 1 exactly when its position occurs among the masked indices,
and 0 exactly when it occurs among the unmasked indices. -/
theorem C6_masked_matrix_consistent {α : Type} [Inhabited α] (training : Bool)
    (noise : List (List ℚ)) (mask_ratio : ℚ) (patches : List (List α)) (L b j : ℕ)
    (hL : (patches.headD []).length = L)
    (hr0 : 0 ≤ mask_ratio) (hr1 : mask_ratio < 1)
    (hb : b < patches.length) (hj : j < L)
    (hnoise : training = true → (noise.getD b []).length = L) :
    ((mask_out training noise mask_ratio patches).masked_matrix.getD b []).length = L ∧
    (((mask_out training noise mask_ratio patches).masked_matrix.getD b []).getD j 0 = 1 ↔
      j ∈ (mask_out training noise mask_ratio patches).masked_indices.getD b []) ∧
    (((mask_out training noise mask_ratio patches).masked_matrix.getD b []).getD j 0 = 0 ↔
      j ∈ (mask_out training noise mask_ratio patches).unmasked_indices.getD b []) ∧
    (((mask_out training noise mask_ratio patches).masked_matrix.getD b []).getD j 0 = 0 ∨
      ((mask_out training noise mask_ratio patches).masked_matrix.getD b []).getD j 0 = 1) := by
  have hp : List.Perm (argsort (noise_row training noise L b)) (List.range L) :=
    noise_row_argsort_perm training noise L b hnoise
  have hnd : (argsort (noise_row training noise L b)).Nodup := argsort_nodup _
  have hplen : (argsort (noise_row training noise L b)).length = L := by
    rw [argsort_length, noise_row_length training noise L b hnoise]
  have hjmem : j ∈ argsort (noise_row training noise L b) := by
    rw [argsort_mem, noise_row_length training noise L b hnoise]
    exact hj
  have hidxlt : (argsort (noise_row training noise L b)).indexOf j < L :=
    lt_of_lt_of_le (List.indexOf_lt_length.mpr hjmem) (le_of_eq hplen)
  rw [mask_out_matrix_getD training noise mask_ratio patches b hb,
    mask_out_masked_getD training noise mask_ratio patches b hb,
    mask_out_unmasked_getD training noise mask_ratio patches b hb, hL]
  have hentry :
      ((List.range L).map (fun j =>
        (structured_row (num_masked_patches mask_ratio (grid_size L * grid_size L)) L).getD
          ((argsort (argsort (noise_row training noise L b))).getD j 0) 0)).getD j 0 =
        (if (argsort (noise_row training noise L b)).indexOf j <
            num_masked_patches mask_ratio (grid_size L * grid_size L) then (1 : ℚ) else 0) := by
    rw [getD_map_range _ _ hj, argsort_inverse hp hj, structured_row,
      getD_map_range _ _ hidxlt]
  refine ⟨by simp, ?_, ?_, ?_⟩
  · rw [hentry, mem_take_iff_indexOf_lt hnd hjmem]
    constructor
    · intro h
      by_contra hc
      simp [hc] at h
    · intro h
      simp [h]
  · rw [hentry, mem_drop_iff_le_indexOf hnd hjmem]
    constructor
    · intro h
      by_contra hc
      push_neg at hc
      simp [hc] at h
    · intro h
      have hc : ¬ (argsort (noise_row training noise L b)).indexOf j <
          num_masked_patches mask_ratio (grid_size L * grid_size L) := by omega
      simp [hc]
  · rw [hentry]
    by_cases h : (argsort (noise_row training noise L b)).indexOf j <
        num_masked_patches mask_ratio (grid_size L * grid_size L)
    · right
      simp [h]
    · left
      simp [h]

/-- Witness for C6 at `B = 1`, `L = 4`, `mask_ratio = 1/2`, position 1 in
evaluation mode. -/
theorem C6_masked_matrix_consistent_witness :
    (0 : ℚ) ≤ 1 / 2 ∧ (1 : ℚ) / 2 < 1 ∧
    (((mask_out false [] ((1 : ℚ) / 2) [List.replicate 4 (0 : ℚ)]).masked_matrix.getD 0 []).length = 4 ∧
    (((mask_out false [] ((1 : ℚ) / 2) [List.replicate 4 (0 : ℚ)]).masked_matrix.getD 0 []).getD 1 0 = 1 ↔
      1 ∈ (mask_out false [] ((1 : ℚ) / 2) [List.replicate 4 (0 : ℚ)]).masked_indices.getD 0 []) ∧
    (((mask_out false [] ((1 : ℚ) / 2) [List.replicate 4 (0 : ℚ)]).masked_matrix.getD 0 []).getD 1 0 = 0 ↔
      1 ∈ (mask_out false [] ((1 : ℚ) / 2) [List.replicate 4 (0 : ℚ)]).unmasked_indices.getD 0 []) ∧
    (((mask_out false [] ((1 : ℚ) / 2) [List.replicate 4 (0 : ℚ)]).masked_matrix.getD 0 []).getD 1 0 = 0 ∨
      ((mask_out false [] ((1 : ℚ) / 2) [List.replicate 4 (0 : ℚ)]).masked_matrix.getD 0 []).getD 1 0 = 1)) :=
  ⟨by norm_num, by norm_num,
    C6_masked_matrix_consistent false [] ((1 : ℚ) / 2) [List.replicate 4 (0 : ℚ)] 4 0 1
      (by simp) (by norm_num) (by norm_num) (by simp) (by norm_num) (by simp)⟩

theorem num_masked_zero (n : ℕ) : num_masked_patches 0 n = 0 := by
  simp [num_masked_patches]

theorem structured_row_zero_getD (L k : ℕ) : (structured_row 0 L).getD k 0 = 0 := by
  rcases Nat.lt_or_ge k L with h | h
  · rw [structured_row, getD_map_range _ _ h]
    simp
  · rw [List.getD_eq_default]
    simp only [structured_row, List.length_map, List.length_range]
    exact h

/-- C4: the code violates the mask-ratio-zero guard the claim demands:
`ClayMAEModule.__init__` accepts `mask_ratio = 0` without any check (first
conjunct — construction succeeds), and with `mask_ratio = 0` every entry of
the dense mask produced by `Encoder.mask_out` is zero, so the sum of the
mask — the denominator of `per_pixel_loss` — is 0 and the division
`sum(loss * mask) / sum(mask)` is `0/0` (NaN in torch); no configuration
error is raised before or during loss computation. -/
theorem C4_mask_ratio_zero_not_guarded :
    ClayMAEModule_init "tiny" 0 false 16 = Except.ok (clay_mae_tiny_args 0 16 false) ∧
    ∀ (α : Type) [Inhabited α] (training : Bool) (noise : List (List ℚ))
      (patches : List (List α)),
      (((mask_out training noise 0 patches).masked_matrix.map List.sum).sum : ℚ) = 0 := by
  constructor
  · rfl
  · intro α _ training noise patches
    apply List.sum_eq_zero
    intro x hx
    obtain ⟨row, hrow, rfl⟩ := List.mem_map.mp hx
    simp only [mask_out] at hrow
    obtain ⟨b, hbmem, rfl⟩ := List.mem_map.mp hrow
    apply List.sum_eq_zero
    intro y hy
    obtain ⟨j, hjmem, rfl⟩ := List.mem_map.mp hy
    rw [num_masked_zero]
    exact structured_row_zero_getD _ _

theorem encode_metadata_getD (time latlon : T2) (ht hll : Bool) (b : ℕ)
    (hb : b < time.length) :
    (encode_metadata time latlon ht hll).getD b [] =
      (if hll then
        [Real.sin ((latlon.getD b []).getD 0 0 * Real.pi / 180),
         Real.cos ((latlon.getD b []).getD 0 0 * Real.pi / 180),
         Real.sin ((latlon.getD b []).getD 1 0 * Real.pi / 180),
         Real.cos ((latlon.getD b []).getD 1 0 * Real.pi / 180)]
      else [0, 0, 0, 0]) ++
      (if ht then [0, 0, 0, 0]
      else
        [Real.sin ((time.getD b []).getD 0 0 * 2 * Real.pi / 24),
         Real.cos ((time.getD b []).getD 0 0 * 2 * Real.pi / 24),
         Real.sin ((time.getD b []).getD 1 0 * 2 * Real.pi / 52),
         Real.cos ((time.getD b []).getD 1 0 * 2 * Real.pi / 52)]) := by
  rw [encode_metadata, getD_map_range _ _ hb]

/-- C3 (amended): `encode_metadata` returns one 8-wide vector per sample.
The lat/lon block (entries 0-3) is `[sin lat', cos lat', sin lon',
cos lon']` when `has_lat_lon` is true and zeroed when it is false, as the
claim states; the time flag, however, is inverted in the source
(`if not has_time`, lines 41-49): the time block (entries 4-7) is ZEROED
when `has_time` is true and populated with
`[sin(hour*2pi/24), cos(hour*2pi/24), sin(week*2pi/52), cos(week*2pi/52)]`
when `has_time` is false.  In particular with both flags true the result
is `[sin lat', cos lat', sin lon', cos lon', 0, 0, 0, 0]`, not the full
8-value vector of the claim. -/
theorem C3_encode_metadata_blocks (time latlon : T2) (ht hll : Bool) (b : ℕ)
    (hb : b < time.length) :
    ((encode_metadata time latlon ht hll).getD b []).length = 8 ∧
    ((encode_metadata time latlon ht hll).getD b []).take 4 =
      (if hll then
        [Real.sin ((latlon.getD b []).getD 0 0 * Real.pi / 180),
         Real.cos ((latlon.getD b []).getD 0 0 * Real.pi / 180),
         Real.sin ((latlon.getD b []).getD 1 0 * Real.pi / 180),
         Real.cos ((latlon.getD b []).getD 1 0 * Real.pi / 180)]
      else [0, 0, 0, 0]) ∧
    ((encode_metadata time latlon ht hll).getD b []).drop 4 =
      (if ht then [0, 0, 0, 0]
      else
        [Real.sin ((time.getD b []).getD 0 0 * 2 * Real.pi / 24),
         Real.cos ((time.getD b []).getD 0 0 * 2 * Real.pi / 24),
         Real.sin ((time.getD b []).getD 1 0 * 2 * Real.pi / 52),
         Real.cos ((time.getD b []).getD 1 0 * 2 * Real.pi / 52)]) := by
  rw [encode_metadata_getD time latlon ht hll b hb]
  cases ht <;> cases hll <;> simp

/-- Witness for C3 at one sample with `lat = lon = 0`, `hour = 0`,
`week = 0` and both flags true. -/
theorem C3_encode_metadata_blocks_witness :
    (0 : ℕ) < ([[0, 0]] : T2).length ∧
    (((encode_metadata [[0, 0]] [[0, 0]] true true).getD 0 []).length = 8 ∧
    ((encode_metadata [[0, 0]] [[0, 0]] true true).getD 0 []).take 4 =
      (if true then
        [Real.sin ((([[0, 0]] : T2).getD 0 []).getD 0 0 * Real.pi / 180),
         Real.cos ((([[0, 0]] : T2).getD 0 []).getD 0 0 * Real.pi / 180),
         Real.sin ((([[0, 0]] : T2).getD 0 []).getD 1 0 * Real.pi / 180),
         Real.cos ((([[0, 0]] : T2).getD 0 []).getD 1 0 * Real.pi / 180)]
      else [0, 0, 0, 0]) ∧
    ((encode_metadata [[0, 0]] [[0, 0]] true true).getD 0 []).drop 4 =
      (if true then [0, 0, 0, 0]
      else
        [Real.sin ((([[0, 0]] : T2).getD 0 []).getD 0 0 * 2 * Real.pi / 24),
         Real.cos ((([[0, 0]] : T2).getD 0 []).getD 0 0 * 2 * Real.pi / 24),
         Real.sin ((([[0, 0]] : T2).getD 0 []).getD 1 0 * 2 * Real.pi / 52),
         Real.cos ((([[0, 0]] : T2).getD 0 []).getD 1 0 * 2 * Real.pi / 52)])) :=
  ⟨by simp, C3_encode_metadata_blocks [[0, 0]] [[0, 0]] true true 0 (by simp)⟩

/-- Counterexample to C3 as stated: with both flags true, `hour = 6`,
`week = 13` and `lat = lon = 0`, the claim says entry 4 equals
`sin(6 * 2pi / 24) = sin(pi/2) = 1`, but the code returns 0 there (the
time block is zeroed when `has_time` is true). -/
theorem C3_counterexample :
    ((encode_metadata [[6, 13]] [[0, 0]] true true).getD 0 []).getD 4 0 = 0 ∧
    Real.sin ((6 : ℝ) * 2 * Real.pi / 24) = 1 ∧ (0 : ℝ) ≠ 1 := by
  refine ⟨?_, ?_, by norm_num⟩
  · rw [encode_metadata_getD [[6, 13]] [[0, 0]] true true 0 (by simp)]
    simp
  · have h : (6 : ℝ) * 2 * Real.pi / 24 = Real.pi / 2 := by ring
    rw [h, Real.sin_pi_div_two]

/-- C9: constructing `ClayMAEModule` with a model size absent from the
registry fails with a `ValueError` whose message names the invalid key and
the valid key set, while the registered name `tiny` constructs
successfully. -/
theorem C9_model_size_registry (model_size : String) (mask_ratio : ℚ)
    (norm_pix_loss : Bool) (patch_size : ℕ)
    (h : model_size ∉ model_map.map Prod.fst) :
    ClayMAEModule_init model_size mask_ratio norm_pix_loss patch_size =
      Except.error ("Invalid model size " ++ model_size ++
        ". Expected one of dict_keys([tiny])") ∧
    ClayMAEModule_init "tiny" mask_ratio norm_pix_loss patch_size =
      Except.ok (clay_mae_tiny_args mask_ratio patch_size norm_pix_loss) := by
  constructor
  · rw [ClayMAEModule_init]
    have hfind : model_map.find? (fun kv => kv.1 = model_size) = none := by
      rw [List.find?_eq_none]
      intro kv hkv
      simp only [model_map, List.mem_singleton] at hkv
      subst hkv
      simp only [decide_eq_true_eq]
      intro hc
      exact h (by simp [model_map, hc])
    rw [hfind]
    rfl
  · rfl

/-- Witness for C9 at the unregistered name `small`. -/
theorem C9_model_size_registry_witness :
    "small" ∉ model_map.map Prod.fst ∧
    (ClayMAEModule_init "small" (3 / 4) false 16 =
      Except.error ("Invalid model size " ++ "small" ++
        ". Expected one of dict_keys([tiny])") ∧
    ClayMAEModule_init "tiny" (3 / 4) false 16 =
      Except.ok (clay_mae_tiny_args (3 / 4) 16 false)) :=
  ⟨by simp [model_map], C9_model_size_registry "small" (3 / 4) false 16 (by simp [model_map])⟩

/-- C10: `ClayMAEModule.predict_step` fails on every input: its first
shape assertion reads `self.model.encoder.B`, an attribute the `Encoder`
class never assigns, so the access raises an `AttributeError`
unconditionally after the encoder forward pass and a prediction frame is
never returned. -/
theorem C10_predict_step_fails (e : EncoderM) (training : Bool)
    (noise : List (List ℚ)) (batch : Datacube) :
    predict_step e training noise batch =
      Except.error ("AttributeError: Encoder object has no attribute " ++ "B") := by
  rw [predict_step]
  have h : encoder_getattr "B" =
      Except.error ("AttributeError: Encoder object has no attribute " ++ "B") := by
    rw [encoder_getattr]
    have hmem : "B" ∉ encoder_assigned_attributes := by
      simp [encoder_assigned_attributes]
    rw [if_neg hmem]
  rw [h]

theorem shape2_row_length {α : Type} {t : List (List α)} {a b : ℕ} (h : shape2 t a b)
    {i : ℕ} (hi : i < a) : (t.getD i []).length = b := by
  have hlen : i < t.length := by rw [h.1]; exact hi
  rw [List.getD_eq_getElem _ _ hlen]
  exact h.2 _ (List.getElem_mem hlen)

theorem getD_zipWith {α β γ : Type} (f : α → β → γ) (xs : List α) (ys : List β)
    (dx : α) (dy : β) (dz : γ) (i : ℕ) (h1 : i < xs.length) (h2 : i < ys.length) :
    (List.zipWith f xs ys).getD i dz = f (xs.getD i dx) (ys.getD i dy) := by
  rw [List.getD_eq_getElem _ _ (by rw [List.length_zipWith]; omega),
    List.getElem_zipWith, List.getD_eq_getElem _ _ h1, List.getD_eq_getElem _ _ h2]

theorem zipWith_eq_map_range {α β γ : Type} (f : α → β → γ) (dx : α) (dy : β)
    (xs : List α) (ys : List β) :
    List.zipWith f xs ys =
      (List.range (min xs.length ys.length)).map
        (fun i => f (xs.getD i dx) (ys.getD i dy)) := by
  apply List.ext_getElem
  · simp
  · intro i h1 h2
    simp only [List.length_zipWith, lt_min_iff] at h1
    simp only [List.getElem_zipWith, List.getElem_map, List.getElem_range]
    rw [List.getD_eq_getElem _ _ h1.1, List.getD_eq_getElem _ _ h1.2]

theorem list_eq_map_range_getD {α : Type} (xs : List α) (d : α) {n : ℕ}
    (h : xs.length = n) : xs = (List.range n).map (fun i => xs.getD i d) := by
  apply List.ext_getElem
  · simp [h]
  · intro i h1 h2
    simp only [List.getElem_map, List.getElem_range]
    rw [List.getD_eq_getElem _ _ h1]

theorem zipWith_mem {α β γ : Type} {f : α → β → γ} {xs : List α} {ys : List β}
    {r : γ} (h : r ∈ List.zipWith f xs ys) :
    ∃ i, ∃ h1 : i < xs.length, ∃ h2 : i < ys.length, r = f xs[i] ys[i] := by
  obtain ⟨i, hi, he⟩ := List.getElem_of_mem h
  rw [List.length_zipWith, lt_min_iff] at hi
  exact ⟨i, hi.1, hi.2, by rw [← he, List.getElem_zipWith]⟩

theorem map_eq_map_range_getD {α β : Type} (f : α → β) (xs : List α) (d : α)
    {n : ℕ} (h : xs.length = n) :
    xs.map f = (List.range n).map (fun i => f (xs.getD i d)) := by
  apply List.ext_getElem
  · simp [h]
  · intro i h1 h2
    simp only [List.getElem_map, List.getElem_range]
    rw [List.getD_eq_getElem]

theorem sum_map_range_congr {n : ℕ} (f g : ℕ → ℝ) (h : ∀ i, i < n → f i = g i) :
    ((List.range n).map f).sum = ((List.range n).map g).sum := by
  congr 1
  apply List.map_congr_left
  intro i hi
  exact h i (List.mem_range.mp hi)

theorem sum_map_range_single {n l0 : ℕ} (f : ℕ → ℝ) (h0 : l0 < n)
    (h : ∀ i, i < n → i ≠ l0 → f i = 0) : ((List.range n).map f).sum = f l0 := by
  induction n with
  | zero => omega
  | succ k ih =>
      rw [List.range_succ, List.map_append, List.sum_append]
      by_cases hk : l0 = k
      · subst hk
        have h1 : ((List.range l0).map f).sum = 0 := by
          apply List.sum_eq_zero
          intro x hx
          obtain ⟨i, hi, rfl⟩ := List.mem_map.mp hx
          rw [List.mem_range] at hi
          exact h i (by omega) (by omega)
        simp [h1]
      · have h2 : f k = 0 := h k (by omega) (by omega)
        rw [ih (by omega) (fun i hi hne => h i (by omega) hne)]
        simp [h2]

theorem patch_errors_def (npl : Bool) (p : ℕ) (cube : T4) (pixels : T3) :
    patch_errors npl p cube pixels =
      List.zipWith
        (fun ps qs => List.zipWith
          (fun u v => meanList (List.zipWith (fun a b => (a - b) ^ 2) u v)) ps qs)
        (if npl then (cube.map (patchify_sample p)).map (fun ps => ps.map norm_patch)
         else cube.map (patchify_sample p))
        pixels := rfl

theorem per_pixel_loss_def (npl : Bool) (p : ℕ) (cube : T4) (pixels : T3) (mm : T2) :
    per_pixel_loss npl p cube pixels mm =
      (List.zipWith (fun ls ms => (List.zipWith (fun a b => a * b) ls ms).sum)
        (patch_errors npl p cube pixels) mm).sum /
      (mm.map List.sum).sum := rfl

theorem patches_normed_shape (npl : Bool) (p : ℕ) (cube : T4) (B L : ℕ)
    (hC : shape2 (cube.map (patchify_sample p)) B L) :
    shape2
      (if npl then (cube.map (patchify_sample p)).map (fun ps => ps.map norm_patch)
       else cube.map (patchify_sample p)) B L := by
  cases npl
  · simpa using hC
  · refine ⟨by simpa using hC.1, ?_⟩
    intro r hr
    simp only [if_true] at hr
    obtain ⟨r0, hr0, rfl⟩ := List.mem_map.mp hr
    simp [hC.2 r0 hr0]

theorem patch_errors_shape (npl : Bool) (p : ℕ) (cube : T4) (pixels : T3) (B L : ℕ)
    (hC : shape2 (cube.map (patchify_sample p)) B L) (hP : shape2 pixels B L) :
    shape2 (patch_errors npl p cube pixels) B L := by
  have hQ := patches_normed_shape npl p cube B L hC
  rw [patch_errors_def]
  constructor
  · rw [List.length_zipWith, hQ.1, hP.1, Nat.min_self]
  · intro r hr
    obtain ⟨i, h1, h2, rfl⟩ := zipWith_mem hr
    rw [List.length_zipWith]
    have hx := hQ.2 _ (List.getElem_mem h1)
    have hy := hP.2 _ (List.getElem_mem h2)
    rw [hx, hy, Nat.min_self]

theorem per_pixel_loss_index_formula (npl : Bool) (p : ℕ) (cube : T4)
    (pixels : T3) (mm : T2) (B L : ℕ)
    (hE : shape2 (patch_errors npl p cube pixels) B L) (hM : shape2 mm B L) :
    per_pixel_loss npl p cube pixels mm =
      ((List.range B).map (fun b => ((List.range L).map (fun l =>
        ((patch_errors npl p cube pixels).getD b []).getD l 0 *
          (mm.getD b []).getD l 0)).sum)).sum /
      ((List.range B).map (fun b => ((List.range L).map (fun l =>
        (mm.getD b []).getD l 0)).sum)).sum := by
  rw [per_pixel_loss_def]
  congr 1
  · rw [zipWith_eq_map_range _ ([] : T1) ([] : T1), hE.1, hM.1, Nat.min_self]
    apply sum_map_range_congr
    intro b hb
    rw [zipWith_eq_map_range _ (0 : ℝ) (0 : ℝ),
      shape2_row_length hE hb, shape2_row_length hM hb, Nat.min_self]
  · rw [map_eq_map_range_getD List.sum mm ([] : T1) hM.1]
    apply sum_map_range_congr
    intro b hb
    exact congrArg List.sum (list_eq_map_range_getD _ (0 : ℝ) (shape2_row_length hM hb))

theorem patch_errors_getD (npl : Bool) (p : ℕ) (cube : T4) (pixels : T3)
    (B L b l : ℕ)
    (hC : shape2 (cube.map (patchify_sample p)) B L) (hP : shape2 pixels B L)
    (hb : b < B) (hl : l < L) :
    ((patch_errors npl p cube pixels).getD b []).getD l 0 =
      meanList (List.zipWith (fun a c => (a - c) ^ 2)
        (((if npl then (cube.map (patchify_sample p)).map (fun ps => ps.map norm_patch)
           else cube.map (patchify_sample p)).getD b []).getD l [])
        ((pixels.getD b []).getD l [])) := by
  have hQ := patches_normed_shape npl p cube B L hC
  rw [patch_errors_def]
  rw [getD_zipWith _ _ _ ([] : T2) ([] : T2) ([] : T1) b
    (by rw [hQ.1]; exact hb) (by rw [hP.1]; exact hb)]
  rw [getD_zipWith _ _ _ ([] : T1) ([] : T1) (0 : ℝ) l
    (by rw [shape2_row_length hQ hb]; exact hl)
    (by rw [shape2_row_length hP hb]; exact hl)]

/-- C2: the scalar loss of `ClayMAE.per_pixel_loss` equals
`sum(per_patch_error * mask) / sum(mask)` — the mean of per-patch error
restricted to masked patches (first conjunct, as an indexed double sum);
when exactly one patch `(b0, l0)` is masked the loss equals that single
patch's error (second conjunct); and changing the reconstructions of
patches whose mask entry is 0 leaves the loss unchanged (third
conjunct). -/
theorem C2_per_pixel_loss_masked_mean (norm_pix_loss : Bool) (patch_size : ℕ)
    (cube : T4) (pixels pixels2 : T3) (mm : T2) (B L b0 l0 : ℕ)
    (hC : shape2 (cube.map (patchify_sample patch_size)) B L)
    (hP : shape2 pixels B L) (hP2 : shape2 pixels2 B L)
    (hM : shape2 mm B L) :
    (per_pixel_loss norm_pix_loss patch_size cube pixels mm =
      ((List.range B).map (fun b => ((List.range L).map (fun l =>
        ((patch_errors norm_pix_loss patch_size cube pixels).getD b []).getD l 0 *
          (mm.getD b []).getD l 0)).sum)).sum /
      ((List.range B).map (fun b => ((List.range L).map (fun l =>
        (mm.getD b []).getD l 0)).sum)).sum) ∧
    (b0 < B → l0 < L →
      (∀ b l, b < B → l < L →
        (mm.getD b []).getD l 0 = if b = b0 ∧ l = l0 then 1 else 0) →
      per_pixel_loss norm_pix_loss patch_size cube pixels mm =
        ((patch_errors norm_pix_loss patch_size cube pixels).getD b0 []).getD l0 0) ∧
    ((∀ b l, b < B → l < L → (mm.getD b []).getD l 0 ≠ 0 →
        (pixels.getD b []).getD l [] = (pixels2.getD b []).getD l []) →
      per_pixel_loss norm_pix_loss patch_size cube pixels mm =
        per_pixel_loss norm_pix_loss patch_size cube pixels2 mm) := by
  have hE := patch_errors_shape norm_pix_loss patch_size cube pixels B L hC hP
  have hE2 := patch_errors_shape norm_pix_loss patch_size cube pixels2 B L hC hP2
  refine ⟨per_pixel_loss_index_formula norm_pix_loss patch_size cube pixels mm B L hE hM,
    ?_, ?_⟩
  · intro hb0 hl0 hmask
    rw [per_pixel_loss_index_formula norm_pix_loss patch_size cube pixels mm B L hE hM]
    have hnumz : ∀ b, b < B → b ≠ b0 →
        ((List.range L).map (fun l =>
          ((patch_errors norm_pix_loss patch_size cube pixels).getD b []).getD l 0 *
            (mm.getD b []).getD l 0)).sum = 0 := by
      intro b hb hne
      apply List.sum_eq_zero
      intro x hx
      obtain ⟨lx, hlx, rfl⟩ := List.mem_map.mp hx
      rw [List.mem_range] at hlx
      rw [hmask b lx hb hlx]
      simp [hne]
    have hnum :
        ((List.range B).map (fun b => ((List.range L).map (fun l =>
          ((patch_errors norm_pix_loss patch_size cube pixels).getD b []).getD l 0 *
            (mm.getD b []).getD l 0)).sum)).sum =
          ((patch_errors norm_pix_loss patch_size cube pixels).getD b0 []).getD l0 0 := by
      rw [sum_map_range_single _ hb0 hnumz]
      rw [sum_map_range_single _ hl0 (by
        intro i hi hne
        rw [hmask b0 i hb0 hi]
        simp [hne])]
      rw [hmask b0 l0 hb0 hl0]
      simp
    have hdenz : ∀ b, b < B → b ≠ b0 →
        ((List.range L).map (fun l => (mm.getD b []).getD l 0)).sum = 0 := by
      intro b hb hne
      apply List.sum_eq_zero
      intro x hx
      obtain ⟨lx, hlx, rfl⟩ := List.mem_map.mp hx
      rw [List.mem_range] at hlx
      rw [hmask b lx hb hlx]
      simp [hne]
    have hden :
        ((List.range B).map (fun b => ((List.range L).map (fun l =>
          (mm.getD b []).getD l 0)).sum)).sum = 1 := by
      rw [sum_map_range_single _ hb0 hdenz]
      rw [sum_map_range_single _ hl0 (by
        intro i hi hne
        rw [hmask b0 i hb0 hi]
        simp [hne])]
      rw [hmask b0 l0 hb0 hl0]
      simp
    rw [hnum, hden, div_one]
  · intro hagree
    rw [per_pixel_loss_index_formula norm_pix_loss patch_size cube pixels mm B L hE hM,
      per_pixel_loss_index_formula norm_pix_loss patch_size cube pixels2 mm B L hE2 hM]
    congr 1
    apply sum_map_range_congr
    intro b hb
    apply sum_map_range_congr
    intro l hl
    by_cases hm : (mm.getD b []).getD l 0 = 0
    · rw [hm]
      ring
    · have hpx := hagree b l hb hl hm
      rw [patch_errors_getD norm_pix_loss patch_size cube pixels B L b l hC hP hb hl,
        patch_errors_getD norm_pix_loss patch_size cube pixels2 B L b l hC hP2 hb hl, hpx]

/-- Witness for C2: one sample, one channel, a 1x2 image with patch size 1
(two patches), mask `[1, 0]` (only patch 0 masked), and two
reconstructions that differ only at the unmasked patch 1. -/
theorem C2_per_pixel_loss_masked_mean_witness :
    shape2 (([[[[(2 : ℝ), 3]]]] : T4).map (patchify_sample 1)) 1 2 ∧
    shape2 ([[[(0 : ℝ)], [0]]] : T3) 1 2 ∧
    shape2 ([[[(0 : ℝ)], [9]]] : T3) 1 2 ∧
    shape2 ([[(1 : ℝ), 0]] : T2) 1 2 ∧
    ((per_pixel_loss false 1 [[[[(2 : ℝ), 3]]]] [[[0], [0]]] [[1, 0]] =
      ((List.range 1).map (fun b => ((List.range 2).map (fun l =>
        ((patch_errors false 1 [[[[(2 : ℝ), 3]]]] [[[0], [0]]]).getD b []).getD l 0 *
          (([[(1 : ℝ), 0]] : T2).getD b []).getD l 0)).sum)).sum /
      ((List.range 1).map (fun b => ((List.range 2).map (fun l =>
        (([[(1 : ℝ), 0]] : T2).getD b []).getD l 0)).sum)).sum) ∧
    (0 < 1 → 0 < 2 →
      (∀ b l, b < 1 → l < 2 →
        (([[(1 : ℝ), 0]] : T2).getD b []).getD l 0 = if b = 0 ∧ l = 0 then 1 else 0) →
      per_pixel_loss false 1 [[[[(2 : ℝ), 3]]]] [[[0], [0]]] [[1, 0]] =
        ((patch_errors false 1 [[[[(2 : ℝ), 3]]]] [[[0], [0]]]).getD 0 []).getD 0 0) ∧
    ((∀ b l, b < 1 → l < 2 → (([[(1 : ℝ), 0]] : T2).getD b []).getD l 0 ≠ 0 →
        (([[[(0 : ℝ)], [0]]] : T3).getD b []).getD l [] =
          (([[[(0 : ℝ)], [9]]] : T3).getD b []).getD l []) →
      per_pixel_loss false 1 [[[[(2 : ℝ), 3]]]] [[[0], [0]]] [[1, 0]] =
        per_pixel_loss false 1 [[[[(2 : ℝ), 3]]]] [[[0], [9]]] [[1, 0]])) := by
  have hC : shape2 (([[[[(2 : ℝ), 3]]]] : T4).map (patchify_sample 1)) 1 2 := by
    refine ⟨rfl, ?_⟩
    intro r hr
    rw [List.mem_map] at hr
    obtain ⟨s, hs, rfl⟩ := hr
    rw [List.mem_singleton] at hs
    subst hs
    rfl
  have hP : shape2 ([[[(0 : ℝ)], [0]]] : T3) 1 2 := by
    refine ⟨rfl, ?_⟩
    intro r hr
    rw [List.mem_singleton] at hr
    subst hr
    rfl
  have hP2 : shape2 ([[[(0 : ℝ)], [9]]] : T3) 1 2 := by
    refine ⟨rfl, ?_⟩
    intro r hr
    rw [List.mem_singleton] at hr
    subst hr
    rfl
  have hM : shape2 ([[(1 : ℝ), 0]] : T2) 1 2 := by
    refine ⟨rfl, ?_⟩
    intro r hr
    rw [List.mem_singleton] at hr
    subst hr
    rfl
  exact ⟨hC, hP, hP2, hM,
    C2_per_pixel_loss_masked_mean false 1 [[[[(2 : ℝ), 3]]]] [[[0], [0]]] [[[0], [9]]]
      [[1, 0]] 1 2 0 0 hC hP hP2 hM⟩

theorem headD_eq_getD_zero {α : Type} (l : List α) (d : α) : l.headD d = l.getD 0 d := by
  cases l <;> rfl

theorem shape2_headD_length {α : Type} {t : List (List α)} {a b : ℕ} (h : shape2 t a b)
    (ha : 0 < a) : (t.headD []).length = b := by
  rw [headD_eq_getD_zero]
  exact shape2_row_length h ha

theorem addVec_length (u v : T1) : (addVec u v).length = min u.length v.length := by
  simp [addVec]

theorem encode_metadata_shape (time latlon : T2) (ht hll : Bool) :
    shape2 (encode_metadata time latlon ht hll) time.length 8 := by
  refine ⟨by simp [encode_metadata], ?_⟩
  intro r hr
  rw [encode_metadata] at hr
  obtain ⟨b, hb, rfl⟩ := List.mem_map.mp hr
  cases ht <;> cases hll <;> simp

theorem map_cons_shape (c : T1) (t : T3) (B n D : ℕ) (hc : c.length = D)
    (ht : shape3 t B n D) :
    shape3 (t.map (fun row => c :: row)) B (1 + n) D := by
  refine ⟨by simp [ht.1], ?_⟩
  intro r hr
  obtain ⟨r0, hr0, rfl⟩ := List.mem_map.mp hr
  have h0 := ht.2 r0 hr0
  refine ⟨by simp [h0.1, Nat.add_comm], ?_⟩
  intro v hv
  rcases List.mem_cons.mp hv with rfl | hv2
  · exact hc
  · exact h0.2 v hv2

theorem add_encodings_shape (e : EncoderM) (patches : T3) (time latlon gsd : T2)
    (B L : ℕ)
    (hp : shape3 patches B L e.dim)
    (hLlen : (patches.headD []).length = L)
    (hsq : grid_size L * grid_size L = L)
    (h8 : 8 ≤ e.dim)
    (htime : time.length = B)
    (hpos : ∀ h w d g, shape2 (e.posemb h w d g) (h * w) d) :
    shape3 (e.add_encodings patches time latlon gsd) B L e.dim := by
  rw [EncoderM.add_encodings, hLlen]
  have hposL : shape2 (e.posemb (grid_size L) (grid_size L) (e.dim - 8)
      ((gsd.headD []).getD 0 0)) L (e.dim - 8) := by
    have := hpos (grid_size L) (grid_size L) (e.dim - 8) ((gsd.headD []).getD 0 0)
    rwa [hsq] at this
  have hmd := encode_metadata_shape time latlon true true
  rw [htime] at hmd
  refine ⟨?_, ?_⟩
  · rw [List.length_zipWith, hp.1, hmd.1, Nat.min_self]
  · intro r hr
    obtain ⟨i, h1, h2, rfl⟩ := zipWith_mem hr
    have hrow := hp.2 _ (List.getElem_mem h1)
    have hmdrow := hmd.2 _ (List.getElem_mem h2)
    refine ⟨?_, ?_⟩
    · rw [List.length_zipWith, hrow.1, hposL.1, Nat.min_self]
    · intro v hv
      obtain ⟨k, hk1, hk2, rfl⟩ := zipWith_mem hv
      rw [addVec_length, List.length_append]
      rw [hrow.2 _ (List.getElem_mem hk1), hposL.2 _ (List.getElem_mem hk2), hmdrow]
      omega

theorem mask_out_shapes (training : Bool) (noise : List (List ℚ)) (r : ℚ)
    (patches : T3) (B L : ℕ) (D : ℕ)
    (hp : shape3 patches B L D)
    (hLlen : (patches.headD []).length = L)
    (hr1 : r ≤ 1)
    (hnoise : training = true → ∀ b, b < B → (noise.getD b []).length = L) :
    shape3 (mask_out training noise r patches).unmasked_patches B
      (L - num_masked_patches r (grid_size L * grid_size L)) D ∧
    shape2 (mask_out training noise r patches).unmasked_indices B
      (L - num_masked_patches r (grid_size L * grid_size L)) ∧
    shape2 (mask_out training noise r patches).masked_indices B
      (num_masked_patches r (grid_size L * grid_size L)) ∧
    shape2 (mask_out training noise r patches).masked_matrix B L := by
  have hnum : num_masked_patches r (grid_size L * grid_size L) ≤ L :=
    le_trans (num_masked_le hr1 _) (grid_size_sq_le L)
  have hrowlen : ∀ b, b < B →
      (argsort (noise_row training noise L b)).length = L := by
    intro b hb
    rw [argsort_length]
    apply noise_row_length
    intro ht
    exact hnoise ht b hb
  refine ⟨⟨?_, ?_⟩, ⟨?_, ?_⟩, ⟨?_, ?_⟩, ⟨?_, ?_⟩⟩
  · simp [mask_out, hp.1]
  · intro row hrow
    simp only [mask_out, hLlen, hp.1] at hrow
    obtain ⟨b, hb, rfl⟩ := List.mem_map.mp hrow
    rw [List.mem_range] at hb
    rw [getD_map_range _ _ hb]
    refine ⟨?_, ?_⟩
    · rw [List.length_map, List.length_drop, hrowlen b hb]
    · intro v hv
      obtain ⟨i, hiv, rfl⟩ := List.mem_map.mp hv
      have : i ∈ argsort (noise_row training noise L b) := List.mem_of_mem_drop hiv
      rw [argsort_mem] at this
      have hiL : i < L := by
        rw [noise_row_length training noise L b (fun ht => hnoise ht b hb)] at this
        exact this
      have hblt : b < patches.length := by rw [hp.1]; exact hb
      have hrowfull := hp.2 (patches.getD b []) (by
        rw [List.getD_eq_getElem _ _ hblt]
        exact List.getElem_mem hblt)
      have hilt : i < (patches.getD b []).length := by rw [hrowfull.1]; exact hiL
      rw [List.getD_eq_getElem _ _ hilt]
      exact hrowfull.2 _ (List.getElem_mem hilt)
  · simp [mask_out, hp.1]
  · intro row hrow
    simp only [mask_out, hLlen, hp.1, List.map_map] at hrow
    obtain ⟨b, hb, rfl⟩ := List.mem_map.mp hrow
    rw [List.mem_range] at hb
    simp only [Function.comp]
    rw [List.length_drop, hrowlen b hb]
  · simp [mask_out, hp.1]
  · intro row hrow
    simp only [mask_out, hLlen, hp.1, List.map_map] at hrow
    obtain ⟨b, hb, rfl⟩ := List.mem_map.mp hrow
    rw [List.mem_range] at hb
    simp only [Function.comp]
    rw [List.length_take, hrowlen b hb, Nat.min_eq_left hnum]
  · simp [mask_out, hp.1]
  · intro row hrow
    simp only [mask_out, hLlen, hp.1] at hrow
    obtain ⟨b, hb, rfl⟩ := List.mem_map.mp hrow
    simp

theorem shape3_headD_length {α : Type} {t : List (List (List α))} {a b c : ℕ}
    (h : shape3 t a b c) (ha : 0 < a) : (t.headD []).length = b := by
  rw [headD_eq_getD_zero]
  have h0 : (0 : ℕ) < t.length := by rw [h.1]; exact ha
  rw [List.getD_eq_getElem _ _ h0]
  exact (h.2 _ (List.getElem_mem h0)).1

theorem getD_map {α β : Type} (f : α → β) (xs : List α) (dx : α) (dy : β) (i : ℕ)
    (h : i < xs.length) : (xs.map f).getD i dy = f (xs.getD i dx) := by
  rw [List.getD_eq_getElem _ _ (by simpa using h), List.getElem_map,
    List.getD_eq_getElem _ _ h]

theorem map_map_vec_shape (f : T1 → T1) (t : T3) (B n D D2 : ℕ)
    (hf : ∀ v : T1, v.length = D → (f v).length = D2) (ht : shape3 t B n D) :
    shape3 (t.map (fun row => row.map f)) B n D2 := by
  refine ⟨by simp [ht.1], ?_⟩
  intro r hr
  obtain ⟨r0, hr0, rfl⟩ := List.mem_map.mp hr
  have h0 := ht.2 r0 hr0
  refine ⟨by simp [h0.1], ?_⟩
  intro v hv
  obtain ⟨v0, hv0, rfl⟩ := List.mem_map.mp hv
  exact hf v0 (h0.2 v0 hv0)

theorem map_drop_one_shape (t : T3) (B n D : ℕ) (ht : shape3 t B (1 + n) D) :
    shape3 (t.map (fun row => row.drop 1)) B n D := by
  refine ⟨by simp [ht.1], ?_⟩
  intro r hr
  obtain ⟨r0, hr0, rfl⟩ := List.mem_map.mp hr
  have h0 := ht.2 r0 hr0
  refine ⟨by rw [List.length_drop, h0.1]; omega, ?_⟩
  intro v hv
  exact h0.2 v (List.mem_of_mem_drop hv)

theorem encoderM_forward_def (e : EncoderM) (training : Bool)
    (noise : List (List ℚ)) (dc : Datacube) :
    e.forward training noise dc =
      (e.transformer
        ((mask_out training noise e.mask_ratio
          (e.add_encodings (e.patch_embedding dc.pixels (dc.waves.headD [])).1
            dc.time dc.latlon dc.gsd)).unmasked_patches.map
          (fun row => e.cls_token :: row)),
       (mask_out training noise e.mask_ratio
          (e.add_encodings (e.patch_embedding dc.pixels (dc.waves.headD [])).1
            dc.time dc.latlon dc.gsd)).unmasked_indices,
       (mask_out training noise e.mask_ratio
          (e.add_encodings (e.patch_embedding dc.pixels (dc.waves.headD [])).1
            dc.time dc.latlon dc.gsd)).masked_indices,
       (mask_out training noise e.mask_ratio
          (e.add_encodings (e.patch_embedding dc.pixels (dc.waves.headD [])).1
            dc.time dc.latlon dc.gsd)).masked_matrix) := rfl

theorem encoder_forward_shape (e : EncoderM) (training : Bool) (noise : List (List ℚ))
    (dc : Datacube) (B L : ℕ)
    (hB : 0 < B)
    (hpe : shape3 (e.patch_embedding dc.pixels (dc.waves.headD [])).1 B L e.dim)
    (htr : ∀ (x : T3) (a b c : ℕ), shape3 x a b c → shape3 (e.transformer x) a b c)
    (hpos : ∀ h w d g, shape2 (e.posemb h w d g) (h * w) d)
    (hcls : e.cls_token.length = e.dim)
    (h8 : 8 ≤ e.dim)
    (hsq : grid_size L * grid_size L = L)
    (htime : dc.time.length = B)
    (hr1 : e.mask_ratio ≤ 1)
    (hnoise : training = true → ∀ b, b < B → (noise.getD b []).length = L) :
    shape3 (e.forward training noise dc).1 B
      (1 + (L - num_masked_patches e.mask_ratio (grid_size L * grid_size L))) e.dim ∧
    shape2 (e.forward training noise dc).2.1 B
      (L - num_masked_patches e.mask_ratio (grid_size L * grid_size L)) ∧
    shape2 (e.forward training noise dc).2.2.1 B
      (num_masked_patches e.mask_ratio (grid_size L * grid_size L)) ∧
    shape2 (e.forward training noise dc).2.2.2 B L := by
  have hadd := add_encodings_shape e
    (e.patch_embedding dc.pixels (dc.waves.headD [])).1 dc.time dc.latlon dc.gsd B L
    hpe (shape3_headD_length hpe hB) hsq h8 htime hpos
  have hm := mask_out_shapes training noise e.mask_ratio
    (e.add_encodings (e.patch_embedding dc.pixels (dc.waves.headD [])).1
      dc.time dc.latlon dc.gsd) B L e.dim hadd (shape3_headD_length hadd hB) hr1 hnoise
  rw [encoderM_forward_def]
  exact ⟨htr _ _ _ _ (map_cons_shape e.cls_token _ B _ e.dim hcls hm.1),
    hm.2.1, hm.2.2.1, hm.2.2.2⟩

theorem shape3_row {α : Type} {t : List (List (List α))} {a b c : ℕ}
    (h : shape3 t a b c) {i : ℕ} (hi : i < a) : shape2 (t.getD i []) b c := by
  have hlt : i < t.length := by rw [h.1]; exact hi
  rw [List.getD_eq_getElem _ _ hlt]
  exact h.2 _ (List.getElem_mem hlt)

theorem zipWith_mem_getD {α β γ : Type} (dx : α) (dy : β) {f : α → β → γ}
    {xs : List α} {ys : List β} {r : γ} (h : r ∈ List.zipWith f xs ys) :
    ∃ i, i < xs.length ∧ i < ys.length ∧ r = f (xs.getD i dx) (ys.getD i dy) := by
  obtain ⟨i, h1, h2, rfl⟩ := zipWith_mem h
  exact ⟨i, h1, h2, by rw [List.getD_eq_getElem _ _ h1, List.getD_eq_getElem _ _ h2]⟩

theorem reconstruct_shape (d : DecoderM) (x : T3) (ui mi : List (List ℕ))
    (mm : List (List ℚ)) (time latlon : T2) (gsd_row : T1) (B L n : ℕ)
    (hB : 0 < B)
    (hx : shape3 x B (1 + n) d.dim)
    (hmm : shape2 mm B L)
    (hsq : grid_size L * grid_size L = L)
    (hui : shape2 ui B n)
    (h8 : 8 ≤ d.dim)
    (hmp : d.mask_patch.length = d.dim)
    (htime : time.length = B)
    (hpos : ∀ h w dd g, shape2 (d.posemb h w dd g) (h * w) dd) :
    shape3 (d.reconstruct_and_add_encoding x ui mi mm time latlon gsd_row)
      B (1 + L) d.dim := by
  have hL0 : (mm.headD []).length = L := shape2_headD_length hmm hB
  have hposL : shape2 (d.posemb (grid_size L) (grid_size L) (d.dim - 8)
      (gsd_row.getD 0 0)) L (d.dim - 8) := by
    have := hpos (grid_size L) (grid_size L) (d.dim - 8) (gsd_row.getD 0 0)
    rwa [hsq] at this
  have hmd : shape2 (encode_metadata time latlon true true) B 8 := by
    have := encode_metadata_shape time latlon true true
    rwa [htime] at this
  rw [DecoderM.reconstruct_and_add_encoding, hmm.1, hL0, hsq]
  refine ⟨?_, ?_⟩
  · rw [List.length_zipWith, List.length_map, hx.1, List.length_map,
      List.length_range, Nat.min_self]
  · intro r hr
    obtain ⟨i, h1, h2, rfl⟩ := zipWith_mem_getD ([] : T2) ([] : T2) hr
    have hiB : i < B := by simpa using h2
    have hix : i < x.length := by rw [hx.1]; simpa [hx.1] using h1
    have hxrow : shape2 (x.getD i []) (1 + n) d.dim := shape3_row hx hiB
    rw [getD_map (fun row => row.take 1) x ([] : T2) ([] : T2) i hix,
      getD_map_range _ ([] : T2) hiB]
    refine ⟨?_, ?_⟩
    · rw [List.length_append, List.length_take, hxrow.1, List.length_map,
        List.length_range]
      omega
    · intro v hv
      rcases List.mem_append.mp hv with hv1 | hv2
      · exact hxrow.2 v (List.mem_of_mem_take hv1)
      · obtain ⟨j, hjmem, rfl⟩ := List.mem_map.mp hv2
        rw [List.mem_range] at hjmem
        by_cases hmask : j ∈ mi.getD i []
        · rw [if_pos hmask, addVec_length, List.length_append, hmp,
            shape2_row_length hposL hjmem, shape2_row_length hmd hiB]
          omega
        · rw [if_neg hmask]
          by_cases hun : j ∈ ui.getD i []
          · rw [if_pos hun, addVec_length, List.length_append,
              shape2_row_length hposL hjmem, shape2_row_length hmd hiB]
            have hk : (ui.getD i []).indexOf j < n := by
              have := List.indexOf_lt_length.mpr hun
              rwa [shape2_row_length hui hiB] at this
            have hrestrow : ((x.map (fun row => row.drop 1)).getD i []) =
                (x.getD i []).drop 1 :=
              getD_map (fun row => row.drop 1) x ([] : T2) ([] : T2) i hix
            have hrestlen : ((x.map (fun row => row.drop 1)).getD i []).length = n := by
              rw [hrestrow, List.length_drop, hxrow.1]
              omega
            have hklt : (ui.getD i []).indexOf j <
                ((x.map (fun row => row.drop 1)).getD i []).length := by
              rw [hrestlen]
              exact hk
            have hvmem : ((x.map (fun row => row.drop 1)).getD i []).getD
                ((ui.getD i []).indexOf j) [] ∈ (x.getD i []) := by
              rw [List.getD_eq_getElem _ _ hklt]
              apply List.mem_of_mem_drop
              rw [← hrestrow]
              exact List.getElem_mem hklt
            rw [hxrow.2 _ hvmem]
            omega
          · rw [if_neg hun, List.length_replicate]

theorem decoderM_forward_def (d : DecoderM) (encoded : T3)
    (ui mi : List (List ℕ)) (mm : List (List ℚ)) (time latlon gsd waves : T2) :
    d.forward encoded ui mi mm time latlon gsd waves =
      ((d.embed_to_pixels
          (d.transformer (d.reconstruct_and_add_encoding
            (encoded.map (fun row => row.map d.enc_to_dec)) ui mi mm time latlon
            (gsd.headD []))) (waves.headD [])).1.map (fun row => row.drop 1),
       (d.embed_to_pixels
          (d.transformer (d.reconstruct_and_add_encoding
            (encoded.map (fun row => row.map d.enc_to_dec)) ui mi mm time latlon
            (gsd.headD []))) (waves.headD [])).2) := rfl

theorem decoder_forward_shape (d : DecoderM) (encoded : T3) (ui mi : List (List ℕ))
    (mm : List (List ℚ)) (time latlon gsd waves : T2) (B L n CPP : ℕ)
    (hB : 0 < B)
    (henc : shape3 encoded B (1 + n) d.encoder_dim)
    (hed : ∀ v : T1, v.length = d.encoder_dim → (d.enc_to_dec v).length = d.dim)
    (htr : ∀ (x : T3) (a b c : ℕ), shape3 x a b c → shape3 (d.transformer x) a b c)
    (hpix : ∀ (x : T3) (w : T1) (a b : ℕ), shape3 x a b d.dim →
      shape3 (d.embed_to_pixels x w).1 a b CPP)
    (hmm : shape2 mm B L)
    (hsq : grid_size L * grid_size L = L)
    (hui : shape2 ui B n)
    (h8 : 8 ≤ d.dim)
    (hmp : d.mask_patch.length = d.dim)
    (htime : time.length = B)
    (hpos : ∀ h w dd g, shape2 (d.posemb h w dd g) (h * w) dd) :
    shape3 (d.forward encoded ui mi mm time latlon gsd waves).1 B L CPP := by
  have hx : shape3 (encoded.map (fun row => row.map d.enc_to_dec)) B (1 + n) d.dim :=
    map_map_vec_shape d.enc_to_dec encoded B (1 + n) d.encoder_dim d.dim hed henc
  have hdp := reconstruct_shape d (encoded.map (fun row => row.map d.enc_to_dec))
    ui mi mm time latlon (gsd.headD []) B L n hB hx hmm hsq hui h8 hmp
    htime hpos
  have hdec := htr _ _ _ _ hdp
  have hpw := hpix _ (waves.headD []) _ _ hdec
  rw [decoderM_forward_def]
  exact map_drop_one_shape _ B L CPP hpw

/-- C7: end-to-end shape preservation for an input with `B = 2`, `C = 4`,
`H = W = 32` and patch size 16 (so `L = 4`), under the spec's shape
contracts for the patch projector, positional encoder and transformer
stacks: the decoder's returned pixel tensor has shape
`(2, 4, 4*16*16)` — the class-token output having been dropped, leaving
exactly `L` patch reconstructions — and the encoder's returned embedding
tensor has shape `(2, 1 + unmasked_count, D)` with
`unmasked_count = 4 - num_masked`. -/
theorem C7_shape_preservation (e : EncoderM) (d : DecoderM) (training : Bool)
    (noise : List (List ℚ)) (dc : Datacube)
    (hpix : shape4 dc.pixels 2 4 32 32)
    (hpe : ∀ (cube : T4) (w : T1), shape4 cube 2 4 32 32 →
      shape3 (e.patch_embedding cube w).1 2 4 e.dim)
    (htr : ∀ (x : T3) (a b c : ℕ), shape3 x a b c → shape3 (e.transformer x) a b c)
    (hpos : ∀ h w dd g, shape2 (e.posemb h w dd g) (h * w) dd)
    (hcls : e.cls_token.length = e.dim)
    (h8 : 8 ≤ e.dim)
    (htime : dc.time.length = 2)
    (hr0 : 0 ≤ e.mask_ratio) (hr1 : e.mask_ratio < 1)
    (hnoise : training = true → ∀ b, b < 2 → (noise.getD b []).length = 4)
    (hdenc : d.encoder_dim = e.dim)
    (hed : ∀ v : T1, v.length = d.encoder_dim → (d.enc_to_dec v).length = d.dim)
    (hdtr : ∀ (x : T3) (a b c : ℕ), shape3 x a b c → shape3 (d.transformer x) a b c)
    (hdpos : ∀ h w dd g, shape2 (d.posemb h w dd g) (h * w) dd)
    (hdpix : ∀ (x : T3) (w : T1) (a b : ℕ), shape3 x a b d.dim →
      shape3 (d.embed_to_pixels x w).1 a b (4 * 16 * 16))
    (h8d : 8 ≤ d.dim)
    (hmp : d.mask_patch.length = d.dim) :
    shape3 (d.forward (e.forward training noise dc).1
      (e.forward training noise dc).2.1 (e.forward training noise dc).2.2.1
      (e.forward training noise dc).2.2.2 dc.time dc.latlon dc.gsd dc.waves).1
      2 4 (4 * 16 * 16) ∧
    shape3 (e.forward training noise dc).1 2
      (1 + (4 - num_masked_patches e.mask_ratio 4)) e.dim := by
  have hsq : grid_size 4 * grid_size 4 = 4 := by decide
  have henc := encoder_forward_shape e training noise dc 2 4 (by norm_num)
    (hpe dc.pixels (dc.waves.headD []) hpix) htr hpos hcls h8 hsq htime hr1.le hnoise
  rw [hsq] at henc
  refine ⟨?_, henc.1⟩
  exact decoder_forward_shape d (e.forward training noise dc).1
    (e.forward training noise dc).2.1 (e.forward training noise dc).2.2.1
    (e.forward training noise dc).2.2.2 dc.time dc.latlon dc.gsd dc.waves
    2 4 (4 - num_masked_patches e.mask_ratio 4) (4 * 16 * 16) (by norm_num)
    (by rw [hdenc]; exact henc.1) hed hdtr hdpix henc.2.2.2 hsq henc.2.1 h8d hmp
    htime hdpos

theorem replicate_shape2 {α : Type} (a b : ℕ) (x : α) :
    shape2 (List.replicate a (List.replicate b x)) a b := by
  refine ⟨List.length_replicate a _, ?_⟩
  intro r hr
  rw [List.eq_of_mem_replicate hr]
  exact List.length_replicate b _

theorem replicate_shape3 {α : Type} (a b c : ℕ) (x : α) :
    shape3 (List.replicate a (List.replicate b (List.replicate c x))) a b c := by
  refine ⟨List.length_replicate a _, ?_⟩
  intro r hr
  rw [List.eq_of_mem_replicate hr]
  exact replicate_shape2 b c x

theorem replicate_shape4 {α : Type} (a b c d : ℕ) (x : α) :
    shape4 (List.replicate a (List.replicate b (List.replicate c (List.replicate d x)))) a b c d := by
  refine ⟨List.length_replicate a _, ?_⟩
  intro r hr
  rw [List.eq_of_mem_replicate hr]
  exact replicate_shape3 b c d x

/-- Witness for C7, applying the shape theorem to the concrete witness
encoder, decoder, and datacube in evaluation mode. -/
theorem C7_shape_preservation_witness :
    shape4 datacubeWitness.pixels 2 4 32 32 ∧
    (shape3 (decoderWitness.forward (encoderWitness.forward false [] datacubeWitness).1
      (encoderWitness.forward false [] datacubeWitness).2.1
      (encoderWitness.forward false [] datacubeWitness).2.2.1
      (encoderWitness.forward false [] datacubeWitness).2.2.2
      datacubeWitness.time datacubeWitness.latlon datacubeWitness.gsd
      datacubeWitness.waves).1 2 4 (4 * 16 * 16) ∧
    shape3 (encoderWitness.forward false [] datacubeWitness).1 2
      (1 + (4 - num_masked_patches encoderWitness.mask_ratio 4)) encoderWitness.dim) := by
  have hpix : shape4 datacubeWitness.pixels 2 4 32 32 := replicate_shape4 2 4 32 32 0
  exact ⟨hpix, C7_shape_preservation encoderWitness decoderWitness false [] datacubeWitness
    hpix
    (fun cube w _ => replicate_shape3 2 4 192 0)
    (fun x a b c h => h)
    (fun h w dd g => replicate_shape2 (h * w) dd 0)
    (List.length_replicate 192 0)
    (show (8 : ℕ) ≤ 192 by norm_num)
    rfl
    (show (0 : ℚ) ≤ 3 / 4 by norm_num)
    (show (3 : ℚ) / 4 < 1 by norm_num)
    (by simp)
    rfl
    (fun v _ => List.length_replicate 96 0)
    (fun x a b c h => h)
    (fun h w dd g => replicate_shape2 (h * w) dd 0)
    (fun x w a b hx => map_map_vec_shape (fun _ => List.replicate 1024 0) x a b 96 1024
      (fun v _ => List.length_replicate 1024 0) hx)
    (show (8 : ℕ) ≤ 96 by norm_num)
    (List.length_replicate 96 0)⟩

theorem clayMAEM_forward_def (m : ClayMAEM) (training : Bool)
    (noise : List (List ℚ)) (dc : Datacube) :
    m.forward training noise dc =
      per_pixel_loss m.norm_pix_loss m.patch_size dc.pixels
        (m.decoder.forward (m.encoder.forward training noise dc).1
          (m.encoder.forward training noise dc).2.1
          (m.encoder.forward training noise dc).2.2.1
          (m.encoder.forward training noise dc).2.2.2
          dc.time dc.latlon dc.gsd dc.waves).1
        ((m.encoder.forward training noise dc).2.2.2.map
          (fun row => row.map (fun q => (q : ℝ)))) := rfl

theorem encoder_forward_inputs_congr (e : EncoderM) (training : Bool)
    (noise : List (List ℚ)) (dc1 dc2 : Datacube)
    (hpix : dc1.pixels = dc2.pixels) (htime : dc1.time = dc2.time)
    (hlatlon : dc1.latlon = dc2.latlon)
    (hgsd : dc1.gsd.headD [] = dc2.gsd.headD [])
    (hwaves : dc1.waves.headD [] = dc2.waves.headD []) :
    e.forward training noise dc1 = e.forward training noise dc2 := by
  simp only [encoderM_forward_def, EncoderM.add_encodings]
  rw [hpix, htime, hlatlon, hgsd, hwaves]

theorem decoder_forward_heads_congr (d : DecoderM) (encoded : T3)
    (ui mi : List (List ℕ)) (mm : List (List ℚ)) (time latlon : T2)
    (gsd1 waves1 gsd2 waves2 : T2)
    (hgsd : gsd1.headD [] = gsd2.headD [])
    (hwaves : waves1.headD [] = waves2.headD []) :
    d.forward encoded ui mi mm time latlon gsd1 waves1 =
      d.forward encoded ui mi mm time latlon gsd2 waves2 := by
  simp only [decoderM_forward_def]
  rw [hgsd, hwaves]

/-- C8: only element 0 of the per-batch `gsd` and `waves` inputs is
consulted.  For two datacubes identical except in the `gsd` entries and
`waves` rows at batch positions 1 and above (so their first entries
agree), and with the same masking randomness, the encoder output, the
decoder output, and the scalar loss are all identical. -/
theorem C8_gsd_waves_tail_irrelevant (e : EncoderM) (d : DecoderM) (m : ClayMAEM)
    (training : Bool) (noise : List (List ℚ)) (dc1 dc2 : Datacube)
    (hpix : dc1.pixels = dc2.pixels) (htime : dc1.time = dc2.time)
    (hlatlon : dc1.latlon = dc2.latlon)
    (hgsd : dc1.gsd.headD [] = dc2.gsd.headD [])
    (hwaves : dc1.waves.headD [] = dc2.waves.headD []) :
    e.forward training noise dc1 = e.forward training noise dc2 ∧
    d.forward (e.forward training noise dc1).1 (e.forward training noise dc1).2.1
      (e.forward training noise dc1).2.2.1 (e.forward training noise dc1).2.2.2
      dc1.time dc1.latlon dc1.gsd dc1.waves =
      d.forward (e.forward training noise dc2).1 (e.forward training noise dc2).2.1
        (e.forward training noise dc2).2.2.1 (e.forward training noise dc2).2.2.2
        dc2.time dc2.latlon dc2.gsd dc2.waves ∧
    m.forward training noise dc1 = m.forward training noise dc2 := by
  have henc := encoder_forward_inputs_congr e training noise dc1 dc2
    hpix htime hlatlon hgsd hwaves
  have hencm := encoder_forward_inputs_congr m.encoder training noise dc1 dc2
    hpix htime hlatlon hgsd hwaves
  refine ⟨henc, ?_, ?_⟩
  · rw [henc, htime, hlatlon]
    exact decoder_forward_heads_congr d _ _ _ _ dc2.time dc2.latlon
      dc1.gsd dc1.waves dc2.gsd dc2.waves hgsd hwaves
  · rw [clayMAEM_forward_def, clayMAEM_forward_def, hencm, hpix, htime, hlatlon]
    rw [decoder_forward_heads_congr m.decoder _ _ _ _ dc2.time dc2.latlon
      dc1.gsd dc1.waves dc2.gsd dc2.waves hgsd hwaves]

/-- Witness for C8: two concrete datacubes differing only in `gsd[1]` and
`waves[1]`, with the witness encoder, decoder and model. -/
theorem C8_gsd_waves_tail_irrelevant_witness :
    datacubeWitness.pixels = datacubeWitness2.pixels ∧
    datacubeWitness.time = datacubeWitness2.time ∧
    datacubeWitness.latlon = datacubeWitness2.latlon ∧
    datacubeWitness.gsd.headD [] = datacubeWitness2.gsd.headD [] ∧
    datacubeWitness.waves.headD [] = datacubeWitness2.waves.headD [] ∧
    datacubeWitness.gsd ≠ datacubeWitness2.gsd ∧
    (encoderWitness.forward false [] datacubeWitness =
      encoderWitness.forward false [] datacubeWitness2 ∧
    decoderWitness.forward (encoderWitness.forward false [] datacubeWitness).1
      (encoderWitness.forward false [] datacubeWitness).2.1
      (encoderWitness.forward false [] datacubeWitness).2.2.1
      (encoderWitness.forward false [] datacubeWitness).2.2.2
      datacubeWitness.time datacubeWitness.latlon datacubeWitness.gsd
      datacubeWitness.waves =
      decoderWitness.forward (encoderWitness.forward false [] datacubeWitness2).1
        (encoderWitness.forward false [] datacubeWitness2).2.1
        (encoderWitness.forward false [] datacubeWitness2).2.2.1
        (encoderWitness.forward false [] datacubeWitness2).2.2.2
        datacubeWitness2.time datacubeWitness2.latlon datacubeWitness2.gsd
        datacubeWitness2.waves ∧
    clayWitness.forward false [] datacubeWitness =
      clayWitness.forward false [] datacubeWitness2) := by
  refine ⟨rfl, rfl, rfl, rfl, rfl, ?_, ?_⟩
  · intro h
    have h2 : ([[(1 : ℝ)], [1]] : T2) = [[1], [7]] := h
    have h3 : (1 : ℝ) = 7 := by
      have := congrArg (fun t : T2 => (t.getD 1 []).getD 0 0) h2
      simpa using this
    norm_num at h3
  · exact C8_gsd_waves_tail_irrelevant encoderWitness decoderWitness clayWitness
      false [] datacubeWitness datacubeWitness2 rfl rfl rfl rfl rfl
